import Mathlib

/-!
A shallow embedding of the burp-insights binary project decoder
(package `burp` and its reader facade), together with theorems about the
properties of its scanning and parsing routines.

Modelling conventions:
* a file is a `List Nat` of byte values; Go byte slices and Go strings are
  both `List Nat` (Go strings are byte strings);
* Go `int`/`int64` offsets are Lean `Int`; unsigned big-endian reads
  (`binary.BigEndian.UintXX`) assemble a `Nat`; the Go conversion
  `int64(u uint64)` is two's complement and is modelled by `toInt64`;
* fallible Go functions returning `(value, err)` are modelled with `Option`
  (the text of the error value is never consumed by the code under study);
* Go maps used as sets are modelled as `List`s with membership tests; Go map
  iteration (nondeterministic in Go) over parsed HTTP headers is modelled as
  iteration over the association list in first-insertion order.
-/

namespace BurpInsights

/-- Byte list of an ASCII string literal. -/
def ascii (s : String) : List Nat := s.data.map Char.toNat

/-- Big-endian integer value of a byte list (`binary.BigEndian.UintXX`). -/
def beNat (bs : List Nat) : Nat := bs.foldl (fun a b => a * 256 + b) 0

/-- Big-endian read of `w` bytes starting at index `off` of a byte list,
matching Go's `binary.BigEndian.UintXX(b[off : off+w])`. -/
def beSlice (bs : List Nat) (off w : Nat) : Nat := beNat ((bs.drop off).take w)

/-- Go's conversion `int64(u)` of a `uint64` value: two's complement. -/
def toInt64 (n : Nat) : Int :=
  if n < 2 ^ 63 then (n : Int) else (n : Int) - 2 ^ 64

/-- Model of `binary.Reader.Size`: the file size recorded when the reader was
opened.  Throughout this development a file is modelled by its byte contents,
a `List Nat`. -/
def size (file : List Nat) : Int := (file.length : Int)

/-- Model of `binary.Reader.ReadAt`: an offset that is negative or at least
`size` fails with `ErrInvalidOffset`; otherwise `os.File.ReadAt` fills
`min(n, size − offset)` bytes of the buffer (a short read ends in `io.EOF`,
which `ReadAt` does not treat as an error) and `buf[:n]` — the file's bytes at
`offset` — is returned.  In a model where a file is its byte contents, a read
at a valid offset always yields those bytes: the remaining error return of the
Go code (an `os.File.ReadAt` error other than `io.EOF`, a device-level fault)
has no counterpart, so every theorem in this development describes executions
whose underlying file reads do not fault. -/
def readAt (file : List Nat) (offset : Int) (n : Nat) : Option (List Nat) :=
  if 0 ≤ offset ∧ offset < size file then
    some ((file.drop offset.toNat).take n)
  else
    none

/-- Model of `binary.Reader.ReadUint16At` / `ReadUint32At` / `ReadUint64At`,
at width `w`: a `ReadAt` of `w` bytes, failing with `ErrReadFailed` when fewer
arrive, else their big-endian value. -/
def readUintAt (file : List Nat) (offset : Int) (w : Nat) : Option Nat :=
  match readAt file offset w with
  | some bs => if bs.length = w then some (beNat bs) else none
  | none => none

/-- First index at or after which `pat` occurs in `data` (Go `bytes.Index`,
with `none` for Go's `-1`). -/
def bytesIndex (data pat : List Nat) : Option Nat :=
  if pat.isPrefixOf data then some 0
  else
    match data with
    | [] => none
    | _ :: rest => (bytesIndex rest pat).map (· + 1)

/-- The pattern `pat` occurs at index `k` of `data`. -/
def occursAt (data pat : List Nat) (k : Nat) : Prop := pat <+: data.drop k

instance (data pat : List Nat) (k : Nat) : Decidable (occursAt data pat k) :=
  inferInstanceAs (Decidable (pat <+: data.drop k))

/-- ASCII whitespace test used to model `strings.TrimSpace` / `strings.Fields`
(Go trims Unicode white space; all inputs of interest are ASCII). -/
def isSpaceByte (c : Nat) : Bool := c = 32 ∨ (9 ≤ c ∧ c ≤ 13)

/-- Model of `strings.TrimSpace` for ASCII byte strings. -/
def trimSpace (s : List Nat) : List Nat :=
  ((s.dropWhile isSpaceByte).reverse.dropWhile isSpaceByte).reverse

/-- Model of `strings.ToLower` for ASCII byte strings. -/
def toLowerB (s : List Nat) : List Nat :=
  s.map fun c => if 65 ≤ c ∧ c ≤ 90 then c + 32 else c

/-- Model of `strings.EqualFold` for ASCII byte strings. -/
def equalFold (a b : List Nat) : Bool := toLowerB a = toLowerB b

/-- Model of `strings.Split(s, sep)` for a single separator byte. -/
def splitByte (b : Nat) : List Nat → List (List Nat)
  | [] => [[]]
  | c :: rest =>
    match splitByte b rest with
    | [] => if c = b then [[], []] else [[c]]
    | h :: t => if c = b then [] :: h :: t else (c :: h) :: t

/-- Split at every whitespace byte (helper for the `strings.Fields` model). -/
def splitOnSpaces : List Nat → List (List Nat)
  | [] => [[]]
  | c :: rest =>
    match splitOnSpaces rest with
    | [] => if isSpaceByte c then [[], []] else [[c]]
    | h :: t => if isSpaceByte c then [] :: h :: t else (c :: h) :: t

/-- Model of `strings.Fields`: maximal runs of non-whitespace bytes. -/
def fieldsB (s : List Nat) : List (List Nat) :=
  (splitOnSpaces s).filter (· ≠ [])

/-- Model of `strings.TrimRight(s, "\x00")`. -/
def trimRightNul (s : List Nat) : List Nat :=
  (s.reverse.dropWhile (· = 0)).reverse

/-- Model of the repository's `parseIntFromString`: read a leading run of
decimal digits, stopping at the first non-digit. -/
def parseIntFromString (s : List Nat) : Nat :=
  go s 0
where
  go : List Nat → Nat → Nat
    | [], n => n
    | c :: rest, n =>
      if 48 ≤ c ∧ c ≤ 57 then go rest (n * 10 + (c - 48)) else n

/-- Model of the repository's `intToString` (`"0"` for zero, decimal digits
otherwise; the Go original returns `""` for negative input, which never occurs
for the natural-valued quantities modelled here).  The digit loop is given the
structural fuel `n`, which bounds the number of divisions by ten. -/
def intToString (n : Nat) : List Nat :=
  if n = 0 then ascii "0" else digits n n
where
  digits : Nat → Nat → List Nat
    | 0, _ => []
    | fuel + 1, n => if n = 0 then [] else digits fuel (n / 10) ++ [48 + n % 10]

/-- Decimal rendering used for `fmt.Sprintf("%d", n)` of the nonnegative
quantities appearing in display names. -/
def natDec (n : Nat) : List Nat := intToString n

/-- The constant `HeaderSize = 256` of the parser. -/
def headerSize : Nat := 256

/-- The HTTP method token patterns of `ScanHTTPRecords`. -/
def httpMethodPatterns : List (List Nat) :=
  [ascii "GET ", ascii "POST ", ascii "PUT ", ascii "DELETE ",
   ascii "PATCH ", ascii "HEAD ", ascii "OPTIONS "]

/-- The inner matcher loop of `ScanHTTPRecords` for one pattern: starting the
search at `idx`, record the buffer position of each pattern hit that passes
the preceding-byte guard, then resume the search right after the hit; the
loop breaks once the resumed index reaches the end of the buffer.  The
`fuel` argument is a structural bound on the number of iterations; each
iteration advances the index by at least the (nonempty) pattern length, so
the wrapper's `data.length + 1` is never exhausted. -/
def patternHitsFromGo (data pat : List Nat) : Nat → Nat → List Nat
  | 0, _ => []
  | fuel + 1, idx =>
    match bytesIndex (data.drop idx) pat with
    | none => []
    | some pos =>
      let actualPos := idx + pos
      let hits :=
        if actualPos > 0 ∧ data.getD (actualPos - 1) 0 ≠ 10 ∧
            data.getD (actualPos - 1) 0 ≠ 0 ∧ actualPos ≥ 8 then
          [actualPos]
        else if actualPos = 0 then [actualPos]
        else []
      if actualPos + pat.length ≥ data.length then hits
      else hits ++ patternHitsFromGo data pat fuel (actualPos + pat.length)

/-- The matcher loop of `ScanHTTPRecords`, started with adequate fuel. -/
def patternHitsFrom (data pat : List Nat) (idx : Nat) : List Nat :=
  patternHitsFromGo data pat (data.length + 1) idx

/-- The per-window recording step of `ScanHTTPRecords`: buffer positions
recorded as request starts, in pattern-major order. -/
def scanBufferRequestStarts (data : List Nat) : List Nat :=
  (httpMethodPatterns.map fun pat => patternHitsFrom data pat 0).flatten

/-- The 1 MiB read-buffer size of `ScanHTTPRecords`. -/
def bufSizeHTTP : Nat := 1024 * 1024

/-- The sliding-window loop of `ScanHTTPRecords`: collect the absolute offsets
recorded over all windows (window-major, then pattern-major).  `fuel` is a
structural bound on the number of windows; each window advances the offset by
at least one byte, so the wrapper's fuel is never exhausted. -/
def scanHTTPOffsetsLoopGo (file : List Nat) : Nat → Int → List Int
  | 0, _ => []
  | fuel + 1, offset =>
    if offset < size file then
      let remaining := size file - offset
      let readSize := if remaining < (bufSizeHTTP : Int) then remaining.toNat else bufSizeHTTP
      match readAt file offset readSize with
      | none => []
      | some data =>
        if data.length = 0 then []
        else
          let winHits := (scanBufferRequestStarts data).map fun k : Nat => offset + (k : Int)
          let step : Nat := if data.length > 20 then data.length - 20 else data.length
          winHits ++ scanHTTPOffsetsLoopGo file fuel (offset + (step : Int))
    else []

/-- The window loop of `ScanHTTPRecords`, started with adequate fuel. -/
def scanHTTPOffsetsLoop (file : List Nat) (offset : Int) : List Int :=
  scanHTTPOffsetsLoopGo file ((size file - offset).toNat + 1) offset

/-- The order-preserving deduplication loop of `deduplicateOffsets`. -/
def dedupGo (seen : List Int) : List Int → List Int
  | [] => []
  | x :: xs => if x ∈ seen then dedupGo seen xs else x :: dedupGo (x :: seen) xs

/-- Model of `deduplicateOffsets`: keep the first occurrence of each offset. -/
def deduplicateOffsets (offsets : List Int) : List Int := dedupGo [] offsets

/-- The line scan of `extractContentLength` over the split header lines. -/
def extractContentLengthGo : List (List Nat) → Nat
  | [] => 0
  | line :: rest =>
    let l := trimSpace line
    if (ascii "content-length:").isPrefixOf (toLowerB l) then
      match bytesIndex l [58] with
      | some i => parseIntFromString (trimSpace (l.drop (i + 1)))
      | none => extractContentLengthGo rest
    else extractContentLengthGo rest

/-- Model of `extractContentLength`: split the header block on newlines and
return the value of the first `Content-Length` header, `0` when absent. -/
def extractContentLength (headers : List Nat) : Nat :=
  extractContentLengthGo (splitByte 10 headers)

/-- Model of `findHTTPRequestEnd` (result `-1` when no blank line is found). -/
def findHTTPRequestEnd (data : List Nat) : Int :=
  match bytesIndex data (ascii "\r\n\r\n") with
  | none =>
    match bytesIndex data (ascii "\n\n") with
    | some i => (i : Int) + 2
    | none => -1
  | some idx =>
    let headerEnd := idx + 4
    let contentLength := extractContentLength (data.take idx)
    if contentLength > 0 ∧ contentLength < 100000 then
      if headerEnd + contentLength ≤ data.length then ((headerEnd + contentLength : Nat) : Int)
      else (headerEnd : Int)
    else (headerEnd : Int)

/-- The next-start search of `findHTTPResponseEnd`: smallest strictly positive
index of a method token or `HTTP/1.` in `searchData`, `-1` when none. -/
def nextStartIn (searchData : List Nat) : Int :=
  let nextHTTP := httpMethodPatterns.foldl
    (fun acc pat =>
      match bytesIndex searchData pat with
      | some pos => if pos > 0 ∧ (acc = -1 ∨ (pos : Int) < acc) then (pos : Int) else acc
      | none => acc)
    (-1)
  match bytesIndex searchData (ascii "HTTP/1.") with
  | some hp => if hp > 0 ∧ (nextHTTP = -1 ∨ (hp : Int) < nextHTTP) then (hp : Int) else nextHTTP
  | none => nextHTTP

/-- Model of `findHTTPResponseEnd`. -/
def findHTTPResponseEnd (data : List Nat) : Int :=
  match bytesIndex data (ascii "\r\n\r\n") with
  | none =>
    match bytesIndex data (ascii "\n\n") with
    | some i => (i : Int) + 2
    | none => -1
  | some idx =>
    let headerEnd := idx + 4
    let contentLength := extractContentLength (data.take idx)
    if contentLength > 0 ∧ contentLength < 500000 then
      if headerEnd + contentLength ≤ data.length then ((headerEnd + contentLength : Nat) : Int)
      else (data.length : Int)
    else
      let searchData := data.drop headerEnd
      let nextHTTP := nextStartIn searchData
      if nextHTTP > 0 then (headerEnd : Int) + nextHTTP
      else if searchData.length < 50000 then (data.length : Int)
      else (headerEnd : Int) + 50000

/-- An HTTP record location (`HTTPRecordLocation`). -/
structure HTTPRecordLocation where
  RequestOffset : Int
  RequestLength : Int
  ResponseOffset : Int
  ResponseLength : Int
deriving DecidableEq, Repr

/-- The request-end computation of `parseRecordAtOffset` (the call to
`findHTTPRequestEnd` followed by the in-line fixups applied to its result). -/
def requestEndIn (data : List Nat) : Int :=
  let reqEnd0 := findHTTPRequestEnd data
  if reqEnd0 ≤ 0 ∨ reqEnd0 > (data.length : Int) then
    let hE : Int :=
      match bytesIndex data (ascii "\r\n\r\n") with
      | some i => (i : Int)
      | none => -1
    if hE > 0 then hE + 4
    else if 1024 > data.length then (data.length : Int) else 1024
  else reqEnd0

/-- Model of `parseRecordAtOffset`: delimit the request (and a following
response, when present) starting at `offset`. -/
def parseRecordAtOffset (file : List Nat) (offset : Int) : HTTPRecordLocation :=
  let loc0 : HTTPRecordLocation := ⟨offset, 0, 0, 0⟩
  match readAt file offset (128 * 1024) with
  | none => loc0
  | some data =>
    if data.length < 10 then loc0
    else
      let reqEnd := requestEndIn data
      let loc1 := { loc0 with RequestLength := reqEnd }
      let searchStart := reqEnd
      if searchStart > (data.length : Int) - 10 then loc1
      else
        match bytesIndex (data.drop searchStart.toNat) (ascii "HTTP/1.") with
        | some respIdx =>
          let respOffset := offset + searchStart + (respIdx : Int)
          let respData := data.drop (searchStart.toNat + respIdx)
          let respEnd := findHTTPResponseEnd respData
          if respEnd > 0 then
            { loc1 with ResponseOffset := respOffset, ResponseLength := respEnd }
          else
            { loc1 with ResponseOffset := respOffset }
        | none => loc1

/-- Model of `Parser.ScanHTTPRecords`: scan all windows, deduplicate the
recorded offsets, and keep the locations with a positive request length. -/
def scanHTTPRecords (file : List Nat) : List HTTPRecordLocation :=
  let allOffsets := deduplicateOffsets (scanHTTPOffsetsLoop file (headerSize : Int))
  (allOffsets.map (parseRecordAtOffset file)).filter fun loc => loc.RequestLength > 0

/-- A parsed HTTP message (`HTTPMessage`); the header multimap is modelled as
an association list in first-insertion order. -/
structure HTTPMessage where
  Raw : List Nat
  Headers : List (List Nat × List (List Nat))
  Body : List Nat
  StartLine : List Nat
deriving DecidableEq, Repr

/-- Append a value under a header key (`msg.Headers[key] = append(...)`). -/
def headersInsert (hs : List (List Nat × List (List Nat))) (k v : List Nat) :
    List (List Nat × List (List Nat)) :=
  match hs with
  | [] => [(k, [v])]
  | (k', vs) :: rest =>
    if k' = k then (k', vs ++ [v]) :: rest else (k', vs) :: headersInsert rest k v

/-- The header-line loop of `parseHTTPMessage` over `lines[1:]`. -/
def parseHeaderLinesGo (acc : List (List Nat × List (List Nat))) :
    List (List Nat) → List (List Nat × List (List Nat))
  | [] => acc
  | line :: rest =>
    let l := trimSpace line
    if l = [] then parseHeaderLinesGo acc rest
    else
      match bytesIndex l [58] with
      | some idx =>
        if idx > 0 then
          parseHeaderLinesGo
            (headersInsert acc (trimSpace (l.take idx)) (trimSpace (l.drop (idx + 1)))) rest
        else parseHeaderLinesGo acc rest
      | none => parseHeaderLinesGo acc rest

/-- Model of `parseHTTPMessage`: split the header block from the body at the
first blank line, take the first line as start line, parse the rest into the
header multimap. -/
def parseHTTPMessage (data : List Nat) : HTTPMessage :=
  let he :=
    match bytesIndex data (ascii "\r\n\r\n") with
    | some i => (i, i + 4)
    | none =>
      match bytesIndex data (ascii "\n\n") with
      | some j => (j, j + 2)
      | none => (data.length, data.length)
  let headerSection := data.take he.1
  let lines := splitByte 10 headerSection
  let startLine := match lines with | [] => [] | l :: _ => trimSpace l
  let headers := parseHeaderLinesGo [] (lines.drop 1)
  let body := if he.2 < data.length then data.drop he.2 else []
  ⟨data, headers, body, startLine⟩

/-- A parsed HTTP entry (`HTTPEntry`); the fields never assigned by the
parsing pipeline (timestamp, tool source, comment, highlight) are omitted. -/
structure HTTPEntry where
  ID : Nat
  Host : List Nat
  Port : Nat
  Protocol : List Nat
  Method : List Nat
  Path : List Nat
  QueryString : List Nat
  URL : List Nat
  Request : Option HTTPMessage
  Response : Option HTTPMessage
  StatusCode : Nat
  ContentLength : Nat
  MIMEType : List Nat
deriving DecidableEq, Repr

/-- The zero value of `HTTPEntry`. -/
def emptyHTTPEntry : HTTPEntry := ⟨0, [], 0, [], [], [], [], [], none, none, 0, 0, []⟩

/-- Go's conversion `uint64(i)` of an `int64` value. -/
def toUint64 (i : Int) : Nat := (i % (2 ^ 64 : Int)).toNat

/-- Model of `parseRequestLine`: split the start line into fields; method,
path (split at the first `?` into path and query string), protocol. -/
def parseRequestLine (entry : HTTPEntry) (line : List Nat) : HTTPEntry :=
  match fieldsB line with
  | m :: fp :: rest =>
    let e1 :=
      match bytesIndex fp [63] with
      | some idx => { entry with Method := m, Path := fp.take idx, QueryString := fp.drop (idx + 1) }
      | none => { entry with Method := m, Path := fp }
    match rest with
    | proto :: _ => { e1 with Protocol := proto }
    | [] => e1
  | _ => entry

/-- Model of `parseStatusLine`: the status code is the parsed second field. -/
def parseStatusLine (entry : HTTPEntry) (line : List Nat) : HTTPEntry :=
  match fieldsB line with
  | _ :: code :: _ => { entry with StatusCode := parseIntFromString code }
  | _ => entry

/-- Model of `extractHostFromHeaders`: at the first `Host` header (ASCII
case-insensitive) with a value, split an optional `:port` suffix; the port
defaults to `80` when no colon is present. -/
def extractHostFromHeaders (entry : HTTPEntry) :
    List (List Nat × List (List Nat)) → HTTPEntry
  | [] => entry
  | (key, values) :: rest =>
    if equalFold key (ascii "Host") ∧ values ≠ [] then
      let hostPort := values.headD []
      match bytesIndex hostPort [58] with
      | some idx =>
        { entry with Host := hostPort.take idx,
                     Port := parseIntFromString (hostPort.drop (idx + 1)) }
      | none => { entry with Host := hostPort, Port := 80 }
    else extractHostFromHeaders entry rest

/-- The `Content-Type` loop of `extractContentTypeFromHeaders`. -/
def extractContentTypeLoop (entry : HTTPEntry) :
    List (List Nat × List (List Nat)) → HTTPEntry
  | [] => entry
  | (key, values) :: rest =>
    if equalFold key (ascii "Content-Type") ∧ values ≠ [] then
      let mt := values.headD []
      let mt' :=
        match bytesIndex mt [59] with
        | some idx => trimSpace (mt.take idx)
        | none => mt
      { entry with MIMEType := mt' }
    else extractContentTypeLoop entry rest

/-- The `Content-Length` loop of `extractContentTypeFromHeaders`. -/
def extractContentLengthLoop (entry : HTTPEntry) :
    List (List Nat × List (List Nat)) → HTTPEntry
  | [] => entry
  | (key, values) :: rest =>
    if equalFold key (ascii "Content-Length") ∧ values ≠ [] then
      { entry with ContentLength := parseIntFromString (values.headD []) }
    else extractContentLengthLoop entry rest

/-- Model of `extractContentTypeFromHeaders` (both loops, in order). -/
def extractContentTypeFromHeaders (entry : HTTPEntry)
    (headers : List (List Nat × List (List Nat))) : HTTPEntry :=
  extractContentLengthLoop (extractContentTypeLoop entry headers) headers

/-- Model of `buildURL`: construct the URL from host, port, path and query
string; no URL is built when the host is empty. -/
def buildURL (entry : HTTPEntry) : HTTPEntry :=
  if entry.Host = [] then entry
  else
    let scheme := if entry.Port = 443 then ascii "https" else ascii "http"
    let url :=
      if entry.Port = 80 ∨ entry.Port = 443 then
        scheme ++ ascii "://" ++ entry.Host ++ entry.Path
      else
        scheme ++ ascii "://" ++ entry.Host ++ ascii ":" ++ intToString entry.Port ++ entry.Path
    let url' := if entry.QueryString ≠ [] then url ++ ascii "?" ++ entry.QueryString else url
    { entry with URL := url' }

/-- The response half of `ParseHTTPEntry`; a failed response read returns the
entry as is (in particular without building the URL). -/
def parseHTTPEntryResp (file : List Nat) (loc : HTTPRecordLocation)
    (entry : HTTPEntry) : Option HTTPEntry :=
  if loc.ResponseLength > 0 ∧ loc.ResponseOffset > 0 then
    match readAt file loc.ResponseOffset loc.ResponseLength.toNat with
    | none => some entry
    | some respData =>
      let respMsg := parseHTTPMessage respData
      let e1 := { entry with Response := some respMsg }
      let e2 := parseStatusLine e1 respMsg.StartLine
      let e3 := extractContentTypeFromHeaders e2 respMsg.Headers
      some (buildURL e3)
  else some (buildURL entry)

/-- Model of `Parser.ParseHTTPEntry`: parse the request and response slices of
a record location into an entry whose id is the request offset. -/
def parseHTTPEntry (file : List Nat) (loc : HTTPRecordLocation) : Option HTTPEntry :=
  let entry0 := { emptyHTTPEntry with ID := toUint64 loc.RequestOffset }
  if loc.RequestLength > 0 then
    match readAt file loc.RequestOffset loc.RequestLength.toNat with
    | none => none
    | some reqData =>
      let reqMsg := parseHTTPMessage reqData
      let e1 := { entry0 with Request := some reqMsg }
      let e2 := parseRequestLine e1 reqMsg.StartLine
      let e3 := extractHostFromHeaders e2 reqMsg.Headers
      parseHTTPEntryResp file loc e3
  else parseHTTPEntryResp file loc entry0

/-- The reader facade's cache (`projectCache`, plus the only metadata field
the history operation writes). -/
structure ProjectCache where
  httpHistory : List HTTPEntry
  locations : List HTTPRecordLocation
  loaded : Bool
  recordCount : Nat
deriving Repr

/-- A freshly opened reader's cache. -/
def emptyCache : ProjectCache := ⟨[], [], false, 0⟩

/-- Model of `Reader.HTTPHistory`: on a cache miss, scan the record locations
and parse each into an entry, skipping entries whose parse fails. -/
def httpHistoryOp (file : List Nat) (c : ProjectCache) :
    List HTTPEntry × ProjectCache :=
  if c.loaded then (c.httpHistory, c)
  else
    let locations := scanHTTPRecords file
    let entries := locations.filterMap (parseHTTPEntry file)
    (entries, ⟨entries, locations, true, entries.length⟩)

/-- Model of `Reader.HTTPHistoryCount`: the cached history length when loaded,
else the number of (possibly cached) scanned locations. -/
def httpHistoryCountOp (file : List Nat) (c : ProjectCache) :
    Nat × ProjectCache :=
  if c.loaded then (c.httpHistory.length, c)
  else if c.locations.length > 0 then (c.locations.length, c)
  else
    let locations := scanHTTPRecords file
    (locations.length, { c with locations := locations })

/-- Big-endian read of the byte range `[a, b)` of a buffer, matching a Go
slice-and-decode `binary.BigEndian.UintXX(buf[a:b])`. -/
def beRange (bs : List Nat) (a b : Nat) : Nat := beNat ((bs.drop a).take (b - a))

/-- Model of `readUTF8StringRecord`: an 8-byte header (`total_len`,
`byte_len`) with `total_len == 8 + byte_len`, then the payload with trailing
NULs stripped. -/
def readUTF8StringRecord (file : List Nat) (offset : Int) : Option (List Nat) :=
  if offset ≤ 0 then none
  else
    match readAt file offset 8 with
    | none => none
    | some header =>
      if header.length < 8 then none
      else
        let totalLen := beRange header 0 4
        let byteLen := beRange header 4 8
        if totalLen ≠ 8 + byteLen then none
        else if byteLen = 0 then some []
        else
          match readAt file (offset + 8) byteLen with
          | none => none
          | some data =>
            if data.length < byteLen then none else some (trimRightNul data)

/-- Pair up bytes big-endian into 16-bit units, dropping an odd trailing
byte (the unit loop of `decodeUTF16BE` / `extractFixedUTF16BEString`). -/
def beUnits : List Nat → List Nat
  | b1 :: b2 :: rest => (b1 * 256 + b2) :: beUnits rest
  | _ => []

/-- Model of Go's `utf16.Decode`: combine surrogate pairs, replace unpaired
surrogates with U+FFFD. -/
def utf16DecodeUnits : List Nat → List Nat
  | [] => []
  | [u] =>
    if 0xD800 ≤ u ∧ u ≤ 0xDBFF then [0xFFFD]
    else if 0xDC00 ≤ u ∧ u ≤ 0xDFFF then [0xFFFD]
    else [u]
  | u :: u2 :: rest2 =>
    if 0xD800 ≤ u ∧ u ≤ 0xDBFF then
      if 0xDC00 ≤ u2 ∧ u2 ≤ 0xDFFF then
        (0x10000 + (u - 0xD800) * 0x400 + (u2 - 0xDC00)) :: utf16DecodeUnits rest2
      else 0xFFFD :: utf16DecodeUnits (u2 :: rest2)
    else if 0xDC00 ≤ u ∧ u ≤ 0xDFFF then 0xFFFD :: utf16DecodeUnits (u2 :: rest2)
    else u :: utf16DecodeUnits (u2 :: rest2)

/-- UTF-8 encoding of one code point (Go `string(runes)`). -/
def utf8EncodeRune (r : Nat) : List Nat :=
  if r < 0x80 then [r]
  else if r < 0x800 then [0xC0 + r / 64, 0x80 + r % 64]
  else if r < 0x10000 then [0xE0 + r / 4096, 0x80 + (r / 64) % 64, 0x80 + r % 64]
  else [0xF0 + r / 262144, 0x80 + (r / 4096) % 64, 0x80 + (r / 64) % 64, 0x80 + r % 64]

/-- Model of `decodeUTF16BE`: big-endian code units up to the first NUL unit,
decoded and re-encoded as a Go (UTF-8 byte) string. -/
def decodeUTF16BE (data : List Nat) : List Nat :=
  let units := (beUnits data).takeWhile (· ≠ 0)
  if units = [] then []
  else ((utf16DecodeUnits units).map utf8EncodeRune).flatten

/-- The constant prefix of a framed-wide-v1 string record. -/
def stringHeaderPrefixV1 : List Nat := [0, 2, 0, 0, 0x0a, 1, 0, 0x12, 0, 0, 0, 0]

/-- Model of `tryReadUTF16BEStringRecordV1` (success as `some`). -/
def tryReadUTF16BEStringRecordV1 (file : List Nat) (start : Int) : Option (List Nat) :=
  match readAt file start 32 with
  | none => none
  | some header =>
    if header.length < 32 then none
    else if ¬ stringHeaderPrefixV1.isPrefixOf header then none
    else
      let totalLen := beRange header 20 28
      let charLen := beRange header 28 32
      if totalLen ≠ 8 + charLen * 2 then none
      else if charLen = 0 then some []
      else if charLen > 1000000 then none
      else
        match readAt file (start + 32) (charLen * 2) with
        | none => none
        | some strBytes =>
          if strBytes.length < charLen * 2 then none else some (decodeUTF16BE strBytes)

/-- Model of `tryReadUTF16BEStringRecordV2` (success as `some`). -/
def tryReadUTF16BEStringRecordV2 (file : List Nat) (start : Int) : Option (List Nat) :=
  match readAt file start 30 with
  | none => none
  | some header =>
    if header.length < 30 then none
    else if beRange header 0 4 ≠ 2 then none
    else if (header.drop 4).take 6 ≠ [0, 0, 0x0a, 1, 0, 0x12] then none
    else
      let totalLen := beRange header 0x12 0x1a
      let charLen := beRange header 0x1a 0x1e
      if totalLen ≠ 8 + charLen * 2 then none
      else if charLen = 0 then some []
      else if charLen > 1000000 then none
      else
        match readAt file (start + 30) (charLen * 2) with
        | none => none
        | some strBytes =>
          if strBytes.length < charLen * 2 then none else some (decodeUTF16BE strBytes)

/-- The candidate loop of `readUTF16BEStringRecord`: v1 then v2 at each base. -/
def readUTF16BEStringRecordGo (file : List Nat) : List Int → Option (List Nat)
  | [] => none
  | start :: rest =>
    match tryReadUTF16BEStringRecordV1 file start with
    | some s => some s
    | none =>
      match tryReadUTF16BEStringRecordV2 file start with
      | some s => some s
      | none => readUTF16BEStringRecordGo file rest

/-- Model of `readUTF16BEStringRecord`: try layouts v1 and v2 at each of the
bases `p`, `p+2`, `p−2`, returning the first success. -/
def readUTF16BEStringRecord (file : List Nat) (pointerOffset : Int) : Option (List Nat) :=
  if pointerOffset ≤ 0 then none
  else readUTF16BEStringRecordGo file [pointerOffset, pointerOffset + 2, pointerOffset - 2]

/-- Issue severity (`Severity`). -/
inductive Severity where
  | Info | Low | Medium | High
deriving DecidableEq, Repr

/-- Issue confidence (`Confidence`). -/
inductive Confidence where
  | Tentative | Firm | Certain
deriving DecidableEq, Repr

/-- Model of `severityFromBurpByte`: map the severity byte, flagging whether
the byte was valid. -/
def severityFromBurpByte (b : Nat) : Severity × Bool :=
  match b with
  | 1 => (Severity.Info, true)
  | 2 => (Severity.Low, true)
  | 3 => (Severity.Medium, true)
  | 4 => (Severity.High, true)
  | _ => (Severity.Info, false)

/-- Model of `confidenceFromBurpByte`. -/
def confidenceFromBurpByte (b : Nat) : Confidence × Bool :=
  match b with
  | 1 => (Confidence.Tentative, true)
  | 2 => (Confidence.Firm, true)
  | 3 => (Confidence.Certain, true)
  | _ => (Confidence.Tentative, false)

/-- An issue-definition record (`IssueDefinition`); consumed opaquely via a
lookup function (the Go original holds the dictionary in process-global
state populated outside the decoder). -/
structure IssueDefinition where
  TypeIndex : Nat
  Name : List Nat
  Description : List Nat
  Remediation : List Nat
  WebIntro : List Nat
  TypicalSeverity : List Nat
  References : List (List Nat × List Nat)
  VulnerabilityClassifications : List (List Nat × List Nat)
deriving DecidableEq, Repr

/-- An exported HTTP message (`ExportedMessage`); the header map keeps the
first value per key, in the model's association-list order. -/
structure ExportedMessage where
  StartLine : List Nat
  Headers : List (List Nat × List Nat)
  Body : List Nat
  BodySize : Nat
  Raw : List Nat
deriving DecidableEq, Repr

/-- Export options (`ExportOptions` fields consumed by `convertMessage`). -/
structure ExportOptions where
  IncludeBody : Bool
  IncludeRaw : Bool
  MaxBodySize : Int
deriving DecidableEq, Repr

/-- The options used for issue evidence (`issueEvidenceExportOptions`). -/
def issueEvidenceExportOptions : ExportOptions := ⟨true, true, 0⟩

/-- Model of `convertMessage`. -/
def convertMessage (msg : HTTPMessage) (opts : ExportOptions) : ExportedMessage :=
  let headers := msg.Headers.filterMap fun kv =>
    match kv.2 with
    | [] => none
    | v :: _ => some (kv.1, v)
  let em0 : ExportedMessage := ⟨msg.StartLine, headers, [], 0, []⟩
  let em1 :=
    if opts.IncludeBody ∧ msg.Body ≠ [] then
      let bodySize := msg.Body.length
      let bs :=
        if opts.MaxBodySize > 0 ∧ (bodySize : Int) > opts.MaxBodySize then
          opts.MaxBodySize.toNat
        else bodySize
      { em0 with BodySize := bodySize, Body := msg.Body.take bs }
    else em0
  if opts.IncludeRaw ∧ msg.Raw ≠ [] then
    let rawSize := msg.Raw.length
    let rs :=
      if opts.MaxBodySize > 0 ∧ (rawSize : Int) > opts.MaxBodySize * 2 then
        (opts.MaxBodySize * 2).toNat
      else rawSize
    { em1 with Raw := msg.Raw.take rs }
  else em1

/-- One evidence entry of a scanner issue (`ScannerIssueEvidence`). -/
structure ScannerIssueEvidence where
  Request : Option ExportedMessage
  Response : Option ExportedMessage
deriving DecidableEq, Repr

/-- A scanner-issue meta record (`ScannerIssueMeta`). -/
structure ScannerIssueMeta where
  RecordOffset : Int
  SerialNumber : Nat
  TaskID : Nat
  TypeID : Nat
  Severity : Severity
  Confidence : Confidence
  Host : List Nat
  Path : List Nat
  Location : List Nat
  Definition : Option IssueDefinition
  Evidence : List ScannerIssueEvidence
deriving DecidableEq, Repr

/-- The 10-byte list-wrapper signature. -/
def listWrapperSig : List Nat := [0, 0, 0, 2, 0, 0, 0x0a, 1, 0, 0x0e]

/-- Model of `readListWrapper`: verify the signature and return
`(count, vec_ptr)`; the vector pointer must be nonzero and fit in an int64. -/
def readListWrapper (file : List Nat) (offset : Int) : Option (Nat × Int) :=
  match readAt file offset 22 with
  | none => none
  | some buf =>
    if buf.length < 22 then none
    else if buf.take 10 ≠ listWrapperSig then none
    else
      let count := beRange buf 10 14
      let ptr := beRange buf 14 22
      if ptr = 0 ∨ ptr > 2 ^ 63 - 1 then none
      else some (count, (ptr : Int))

/-- Model of `readPointerVector`: verify `total_len == 8 + 8·capacity` and
`capacity ≤ 1_000_000`, then read the `capacity` pointers. -/
def readPointerVector (file : List Nat) (offset : Int) : Option (List Int) :=
  match readAt file offset 8 with
  | none => none
  | some buf =>
    if buf.length < 8 then none
    else
      let totalLen := beRange buf 0 4
      let capacity := beRange buf 4 8
      if capacity = 0 ∨ capacity > 1000000 then none
      else if totalLen ≠ 8 + capacity * 8 then none
      else
        match readAt file (offset + 8) (capacity * 8) with
        | none => none
        | some data =>
          if data.length < capacity * 8 then none
          else some ((List.range capacity).map fun i => toInt64 (beRange data (i * 8) (i * 8 + 8)))

/-- A typed-record field descriptor (`typedRecordField`). -/
structure TypedRecordField where
  ID : Nat
  Offset : Nat
deriving DecidableEq, Repr

/-- A compact typed record header (`typedRecord`). -/
structure TypedRecord where
  type : Nat
  FieldCount : Nat
  Fields : List TypedRecordField
deriving DecidableEq, Repr

/-- The descriptor-table loop shared by `readTypedRecordHeader` and
`readV2RecordHeader`: `n` fields remaining, current index `i`, previous
offset `prev`. -/
def buildTypedFields (desc : List Nat) (headerLen : Nat) :
    Nat → Nat → Nat → Option (List TypedRecordField)
  | 0, _, _ => some []
  | n + 1, i, prev =>
    let fieldID := desc.getD (i * 3) 0
    let off := beRange desc (i * 3 + 1) (i * 3 + 3)
    if off < headerLen then none
    else if i = 0 ∧ off ≠ headerLen then none
    else if i > 0 ∧ off < prev then none
    else
      match buildTypedFields desc headerLen n (i + 1) off with
      | none => none
      | some fields => some (⟨fieldID, off⟩ :: fields)

/-- Model of `readTypedRecordHeader` (compact dialect, `field_count ≤ 256`). -/
def readTypedRecordHeader (file : List Nat) (offset : Int) : Option TypedRecord :=
  match readAt file offset 4 with
  | none => none
  | some hdr =>
    if hdr.length < 4 then none
    else
      let recType := beRange hdr 0 2
      let fieldCount := beRange hdr 2 4
      if fieldCount = 0 then none
      else if fieldCount > 256 then none
      else
        match readAt file (offset + 4) (fieldCount * 3) with
        | none => none
        | some desc =>
          if desc.length < fieldCount * 3 then none
          else
            match buildTypedFields desc (4 + fieldCount * 3) fieldCount 0 0 with
            | none => none
            | some fields => some ⟨recType, fieldCount, fields⟩

/-- A wide typed record header (`v2Record`, `field_count ≤ 10_000`). -/
structure V2Record where
  FieldCount : Nat
  Fields : List TypedRecordField
deriving DecidableEq, Repr

/-- Model of `readV2RecordHeader`. -/
def readV2RecordHeader (file : List Nat) (offset : Int) : Option V2Record :=
  match readAt file offset 4 with
  | none => none
  | some hdr =>
    if hdr.length < 4 then none
    else
      let fieldCount := beRange hdr 0 4
      if fieldCount = 0 then none
      else if fieldCount > 10000 then none
      else
        match readAt file (offset + 4) (fieldCount * 3) with
        | none => none
        | some desc =>
          if desc.length < fieldCount * 3 then none
          else
            match buildTypedFields desc ((4 + fieldCount * 3) % 2 ^ 16) fieldCount 0 0 with
            | none => none
            | some fields => some ⟨fieldCount, fields⟩

/-- Model of `typedRecord.fieldOffset` / `v2Record.fieldOffset`. -/
def fieldOffsetOf (fields : List TypedRecordField) (id : Nat) : Option Nat :=
  match fields with
  | [] => none
  | f :: rest => if f.ID = id then some f.Offset else fieldOffsetOf rest id

/-- Model of `readPointerAt`: a u64 read interpreted as int64, accepted only
strictly inside the file. -/
def readPointerAt (file : List Nat) (offset : Int) : Option Int :=
  match readUintAt file offset 8 with
  | none => none
  | some raw =>
    let ptr := toInt64 raw
    if ptr ≤ 0 ∨ ptr ≥ size file then none else some ptr

/-- Model of `readTypedRecordPointers`: read each field position as a u64 and
keep the values that are interior pointers. -/
def readTypedRecordPointers (file : List Nat) (offset : Int) (rec : TypedRecord) : List Int :=
  if rec.Fields = [] then []
  else
    let maxOffset := rec.Fields.foldl (fun m f => if f.Offset > m then f.Offset else m) 0
    let readLen := maxOffset + 8
    if readLen > 64 * 1024 then []
    else
      match readAt file offset readLen with
      | none => []
      | some buf =>
        if buf.length < readLen then []
        else
          rec.Fields.filterMap fun f =>
            if f.Offset + 8 > buf.length then none
            else
              let ptr := toInt64 (beRange buf f.Offset (f.Offset + 8))
              if ptr ≤ (headerSize : Int) ∨ ptr ≥ size file then none else some ptr

/-- Model of `isHTTPMethodStart`. -/
def isHTTPMethodStart (line : List Nat) : Bool :=
  httpMethodPatterns.any fun pat => pat.isPrefixOf line

/-- Model of `looksLikeHTTPStartLine`. -/
def looksLikeHTTPStartLine (line : List Nat) : Bool :=
  (ascii "HTTP/").isPrefixOf line || isHTTPMethodStart line

/-- Model of `findHTTPMessageStart`: earliest index of a method token or
`HTTP/` in the chunk, `-1` when none occurs. -/
def findHTTPMessageStart (chunk : List Nat) : Int :=
  (httpMethodPatterns ++ [ascii "HTTP/"]).foldl
    (fun start pat =>
      match bytesIndex chunk pat with
      | none => start
      | some pos => if start = -1 ∨ (pos : Int) < start then (pos : Int) else start)
    (-1)

/-- Model of `tryHTTPMessageFromUTF8Record`. -/
def tryHTTPMessageFromUTF8Record (file : List Nat) (offset : Int) : Option HTTPMessage :=
  match readUTF8StringRecord file offset with
  | none => none
  | some s =>
    if s = [] then none
    else
      let msg := parseHTTPMessage s
      if msg.StartLine = [] then none
      else if ¬ looksLikeHTTPStartLine msg.StartLine then none
      else some msg

/-- Model of `tryHTTPMessageFromRawRecord`: find an HTTP start line in the
first 64 KiB, validate the preceding `(total_len, data_len)` length prefix,
and parse the framed message. -/
def tryHTTPMessageFromRawRecord (file : List Nat) (offset : Int) : Option HTTPMessage :=
  if offset ≤ 0 then none
  else
    match readAt file offset (64 * 1024) with
    | none => none
    | some chunk =>
      if chunk.length < 16 then none
      else
        let start := findHTTPMessageStart chunk
        if start < 8 then none
        else
          let s := start.toNat
          let totalLen := beRange chunk (s - 8) (s - 4)
          let dataLen := beRange chunk (s - 4) s
          if totalLen ≠ dataLen + 8 ∨ dataLen = 0 then none
          else if dataLen > 50 * 1024 * 1024 then none
          else if offset + (s : Int) + (dataLen : Int) > size file then none
          else
            match readAt file (offset + (s : Int)) dataLen with
            | none => none
            | some data =>
              if data.length < dataLen then none
              else
                let msg := parseHTTPMessage data
                if msg.StartLine = [] then none
                else if ¬ looksLikeHTTPStartLine msg.StartLine then none
                else some msg

/-- The child pointers contributed by the list-wrapper / pointer-vector pair
at a node of the evidence graph (empty when absent or invalid). -/
def evidenceListChildren (file : List Nat) (offset : Int) : List Int :=
  match readListWrapper file offset with
  | some cv =>
    if cv.1 > 0 then
      match readPointerVector file cv.2 with
      | some ptrs => if cv.1 < ptrs.length then ptrs.take cv.1 else ptrs
      | none => []
    else []
  | none => []

/-- The child pointers contributed by a typed-record header at a node of the
evidence graph (empty when the header does not parse). -/
def evidenceTypedChildren (file : List Nat) (offset : Int) : List Int :=
  match readTypedRecordHeader file offset with
  | some rec => readTypedRecordPointers file offset rec
  | none => []

mutual
/-- Model of `collectHTTPMessages`: bounded traversal of the evidence graph,
threading the visited set (instrumented with the depth at which each offset
was first visited, so that visit order and depth can be stated).  The two
child-enumeration branches of the Go function are hoisted into
`evidenceListChildren` and `evidenceTypedChildren`; recursing over an empty
child list returns the state unchanged, exactly as the corresponding Go
branches do. -/
def collectHTTPMessages (file : List Nat) (offset : Int)
    (visited : List (Int × Nat)) (depth : Nat) :
    List HTTPMessage × List (Int × Nat) :=
  if offset ≤ 0 ∨ depth > 6 then ([], visited)
  else if (visited.map Prod.fst).contains offset then ([], visited)
  else
    let visited1 := (offset, depth) :: visited
    let m1 := match tryHTTPMessageFromUTF8Record file offset with
      | some m => [m]
      | none => []
    let m2 := match tryHTTPMessageFromRawRecord file offset with
      | some m => [m]
      | none => []
    let r3 := collectHTTPMessagesList file (evidenceListChildren file offset) visited1 (depth + 1)
    let r4 := collectHTTPMessagesList file (evidenceTypedChildren file offset) r3.2 (depth + 1)
    (m1 ++ m2 ++ r3.1 ++ r4.1, r4.2)
termination_by (7 - depth, 0)

/-- The child loop of `collectHTTPMessages` over a pointer list. -/
def collectHTTPMessagesList (file : List Nat) (ptrs : List Int)
    (visited : List (Int × Nat)) (depth : Nat) :
    List HTTPMessage × List (Int × Nat) :=
  match ptrs with
  | [] => ([], visited)
  | p :: rest =>
    let r1 := collectHTTPMessages file p visited depth
    let r2 := collectHTTPMessagesList file rest r1.2 depth
    (r1.1 ++ r2.1, r2.2)
termination_by (7 - depth, ptrs.length + 1)
end

/-- The request/response selection loop of `resolveRequestResponse`. -/
def rrFold : List HTTPMessage → Option HTTPMessage → Option HTTPMessage →
    Option HTTPMessage × Option HTTPMessage
  | [], req, resp => (req, resp)
  | m :: rest, req, resp =>
    if m.StartLine = [] then rrFold rest req resp
    else if (ascii "HTTP/").isPrefixOf m.StartLine then
      rrFold rest req (if resp.isNone then some m else resp)
    else if req.isNone ∧ isHTTPMethodStart m.StartLine then rrFold rest (some m) resp
    else rrFold rest req resp

/-- Model of `resolveRequestResponse`: first request and first response among
the collected messages of one evidence entry. -/
def resolveRequestResponse (file : List Nat) (entryPtr : Int) :
    Option HTTPMessage × Option HTTPMessage :=
  rrFold (collectHTTPMessages file entryPtr [] 0).1 none none

/-- Model of `resolveEvidenceEntryPointers`. -/
def resolveEvidenceEntryPointers (file : List Nat) (evidencePtr : Int) : List Int :=
  match readListWrapper file evidencePtr with
  | none => []
  | some cv =>
    if cv.1 = 0 then []
    else
      match readPointerVector file cv.2 with
      | none => []
      | some ptrs =>
        if ptrs = [] then []
        else
          let ptrs' := if cv.1 < ptrs.length then ptrs.take cv.1 else ptrs
          ptrs'.filter fun ptr => ¬(ptr ≤ (headerSize : Int) ∨ ptr ≥ size file)

/-- Model of `extractHostAndPathFromMessage`. -/
def extractHostAndPathFromMessage : Option HTTPMessage → List Nat × List Nat
  | none => ([], [])
  | some msg =>
    if msg.StartLine = [] then ([], [])
    else if ¬ isHTTPMethodStart msg.StartLine then ([], [])
    else
      let e := extractHostFromHeaders (parseRequestLine emptyHTTPEntry msg.StartLine) msg.Headers
      let path := if e.QueryString ≠ [] then e.Path ++ ascii "?" ++ e.QueryString else e.Path
      (e.Host, path)

/-- The per-entry loop of `extractIssueEvidence`. -/
def extractIssueEvidenceLoop (file : List Nat) :
    List Int → List Nat → List Nat → List ScannerIssueEvidence × List Nat × List Nat
  | [], host, path => ([], host, path)
  | entryPtr :: rest, host, path =>
    let rr := resolveRequestResponse file entryPtr
    if rr.1.isNone ∧ rr.2.isNone then extractIssueEvidenceLoop file rest host path
    else
      let ev : ScannerIssueEvidence :=
        ⟨rr.1.map (convertMessage · issueEvidenceExportOptions),
         rr.2.map (convertMessage · issueEvidenceExportOptions)⟩
      let hp :=
        if host = [] ∨ path = [] then
          let mhp := extractHostAndPathFromMessage rr.1
          (if host = [] then mhp.1 else host, if path = [] then mhp.2 else path)
        else (host, path)
      let r := extractIssueEvidenceLoop file rest hp.1 hp.2
      (ev :: r.1, r.2)

/-- Model of `extractIssueEvidence`: returns the evidence list and the host
and path lifted from the first request. -/
def extractIssueEvidence (file : List Nat) (evidencePtr : Int) :
    List ScannerIssueEvidence × List Nat × List Nat :=
  if evidencePtr ≤ 0 then ([], [], [])
  else
    let entryPtrs0 := resolveEvidenceEntryPointers file evidencePtr
    let entryPtrs := if entryPtrs0 = [] then [evidencePtr] else entryPtrs0
    extractIssueEvidenceLoop file entryPtrs [] []

/-- Model of `extractHostAndPathFromRequestRecord`. -/
def extractHostAndPathFromRequestRecord (file : List Nat) (recordOffset : Int) :
    List Nat × List Nat :=
  if recordOffset ≤ 0 then ([], [])
  else
    match readAt file recordOffset (64 * 1024) with
    | none => ([], [])
    | some chunk =>
      if chunk.length < 32 then ([], [])
      else
        let methodPos := httpMethodPatterns.foldl
          (fun acc pat =>
            match bytesIndex chunk pat with
            | none => acc
            | some pos => if acc = -1 ∨ (pos : Int) < acc then (pos : Int) else acc)
          (-1)
        if methodPos < 8 then ([], [])
        else
          let mp := methodPos.toNat
          let totalLen := beRange chunk (mp - 8) (mp - 4)
          let dataLen := beRange chunk (mp - 4) mp
          if totalLen ≠ dataLen + 8 ∨ dataLen = 0 then ([], [])
          else
            match readAt file (recordOffset + (mp : Int)) dataLen with
            | none => ([], [])
            | some reqBytes =>
              if reqBytes = [] then ([], [])
              else
                let msg := parseHTTPMessage reqBytes
                if msg.StartLine = [] then ([], [])
                else
                  let e := extractHostFromHeaders
                    (parseRequestLine emptyHTTPEntry msg.StartLine) msg.Headers
                  let path :=
                    if e.QueryString ≠ [] then e.Path ++ ascii "?" ++ e.QueryString else e.Path
                  (e.Host, path)

/-- The 18-field compact-record signature of an issue record. -/
def scannerIssueEntrySignature : List Nat :=
  [0x00, 0x00, 0x00, 0x12,
   0x00, 0x00, 0x3a, 0x01, 0x00, 0x42, 0x02, 0x00, 0x4a, 0x03, 0x00, 0x52,
   0x04, 0x00, 0x5a, 0x05, 0x00, 0x62, 0x06, 0x00, 0x6a, 0x07, 0x00, 0x6b,
   0x08, 0x00, 0x6c, 0x09, 0x00, 0x6d, 0x0a, 0x00, 0x6e, 0x0b, 0x00, 0x72,
   0x0c, 0x00, 0x73, 0x0d, 0x00, 0x7b, 0x0e, 0x00, 0x83, 0x0f, 0x00, 0x8b,
   0x10, 0x00, 0x8f, 0x11, 0x00, 0x97]

/-- The 7-field compact-record signature of an issue index entry. -/
def scannerIssueIndexEntrySignature : List Nat :=
  [0x00, 0x00, 0x00, 0x07,
   0x00, 0x00, 0x19, 0x01, 0x00, 0x1d, 0x02, 0x00, 0x1e, 0x03, 0x00, 0x26,
   0x04, 0x00, 0x27, 0x05, 0x00, 0x2f, 0x06, 0x00, 0x37]

/-- The serial filter of `readScannerIssueMetaAtOffset` (a `nil` Go map means
no filtering). -/
def passesSerialFilter (filt : Option (List Nat)) (serial : Nat) : Bool :=
  match filt with
  | some f => f.contains serial
  | none => true

/-- The meta record built by `readScannerIssueMetaAtOffset` once all guards
have passed: resolve path, location, evidence, and the host/path fallbacks. -/
def buildScannerIssueMeta (file : List Nat) (defs : Nat → Option IssueDefinition)
    (abs : Int) (rec : List Nat) : ScannerIssueMeta :=
  let serial := beRange rec 0x3a 0x42
  let sev := severityFromBurpByte (rec.getD 0x6a 0)
  let conf := confidenceFromBurpByte (rec.getD 0x6b 0)
  let taskID := beRange rec 0x42 0x4a
  let typeID := beRange rec 0x8b 0x8f
  let pathPtr := toInt64 (beRange rec 0x4a 0x52)
  let locationPtr := toInt64 (beRange rec 0x52 0x5a)
  let reqRecPtr := toInt64 (beRange rec 0x73 0x7b)
  let path0 := (readUTF8StringRecord file pathPtr).getD []
  let location := (readUTF16BEStringRecord file locationPtr).getD []
  let ehp := extractIssueEvidence file reqRecPtr
  let hp :=
    if ehp.2.1 = [] ∨ ehp.2.2 = [] then
      let fhp := extractHostAndPathFromRequestRecord file reqRecPtr
      (if ehp.2.1 = [] then fhp.1 else ehp.2.1,
       if ehp.2.2 = [] then fhp.2 else ehp.2.2)
    else (ehp.2.1, ehp.2.2)
  let path := if hp.2 ≠ [] then hp.2 else path0
  ⟨abs, serial, taskID, typeID, sev.1, conf.1, hp.1, path, location, defs typeID, ehp.1⟩

/-- Model of `readScannerIssueMetaAtOffset`: decode an issue record at `abs`,
threading the seen-serial set; returns the decoded meta (when emitted) and
the updated set. -/
def readScannerIssueMetaAtOffset (file : List Nat) (defs : Nat → Option IssueDefinition)
    (abs : Int) (filterSerialNumbers : Option (List Nat)) (seenSerials : List Nat) :
    Option ScannerIssueMeta × List Nat :=
  if abs ≤ 0 ∨ abs ≥ size file then (none, seenSerials)
  else
    match readAt file abs 0x98 with
    | none => (none, seenSerials)
    | some rec =>
      if rec.length < 0x98 then (none, seenSerials)
      else if ¬ scannerIssueEntrySignature.isPrefixOf rec then (none, seenSerials)
      else if ¬ passesSerialFilter filterSerialNumbers (beRange rec 0x3a 0x42) then
        (none, seenSerials)
      else if beRange rec 0x3a 0x42 ∈ seenSerials then (none, seenSerials)
      else if ¬ (severityFromBurpByte (rec.getD 0x6a 0)).2 then
        (none, beRange rec 0x3a 0x42 :: seenSerials)
      else if ¬ (confidenceFromBurpByte (rec.getD 0x6b 0)).2 then
        (none, beRange rec 0x3a 0x42 :: seenSerials)
      else
        (some (buildScannerIssueMeta file defs abs rec), beRange rec 0x3a 0x42 :: seenSerials)

/-- All occurrence positions of `sig` in `data` at or after `searchIdx` (the
signature loop advances by one past each hit).  `fuel` bounds the number of
iterations structurally; the search position strictly increases each round,
so the wrapper's `data.length + 1` is never exhausted for a nonempty
signature. -/
def sigPositionsFromGo (data sig : List Nat) : Nat → Nat → List Nat
  | 0, _ => []
  | fuel + 1, searchIdx =>
    match bytesIndex (data.drop searchIdx) sig with
    | none => []
    | some pos => (searchIdx + pos) :: sigPositionsFromGo data sig fuel (searchIdx + pos + 1)

/-- The signature-position loop, started with adequate fuel. -/
def sigPositionsFrom (data sig : List Nat) (searchIdx : Nat) : List Nat :=
  sigPositionsFromGo data sig (data.length + 1) searchIdx

/-- One hit of the indexed discovery path: re-read and validate the index
entry, then decode the issue record behind its pointer field (offset 0x2f). -/
def idxIssueStep (file : List Nat) (defs : Nat → Option IssueDefinition)
    (filt : Option (List Nat)) (offset : Int) (i : Nat) (seen : List Nat) :
    Option ScannerIssueMeta × List Nat :=
  match readAt file (offset + (i : Int)) 0x37 with
  | none => (none, seen)
  | some rec =>
    if rec.length < 0x37 then (none, seen)
    else if ¬ scannerIssueIndexEntrySignature.isPrefixOf rec then (none, seen)
    else
      readScannerIssueMetaAtOffset file defs (toInt64 (beRange rec 0x2f 0x37)) filt seen

/-- The per-hit loop of `ScanScannerIssueMetas` (indexed path). -/
def scanIssueMetasIdxPositions (file : List Nat) (defs : Nat → Option IssueDefinition)
    (filt : Option (List Nat)) (offset : Int) :
    List Nat → List Nat → List ScannerIssueMeta × List Nat
  | [], seen => ([], seen)
  | i :: rest, seen =>
    let step := idxIssueStep file defs filt offset i seen
    let r := scanIssueMetasIdxPositions file defs filt offset rest step.2
    (match step.1 with
     | some m => m :: r.1
     | none => r.1, r.2)

/-- The window loop of `ScanScannerIssueMetas` (`fuel` bounds the number of
windows structurally; each window advances the offset by at least one byte). -/
def scanScannerIssueMetasLoopGo (file : List Nat) (defs : Nat → Option IssueDefinition)
    (filt : Option (List Nat)) : Nat → Int → List Nat → List ScannerIssueMeta × List Nat
  | 0, _, seen => ([], seen)
  | fuel + 1, offset, seen =>
    if offset < size file then
      let remaining := size file - offset
      let readSize := if remaining < (bufSizeHTTP : Int) then remaining.toNat else bufSizeHTTP
      match readAt file offset readSize with
      | none => ([], seen)
      | some data =>
        if data.length = 0 then ([], seen)
        else
          let positions := sigPositionsFrom data scannerIssueIndexEntrySignature 0
          let r := scanIssueMetasIdxPositions file defs filt offset positions seen
          let step : Nat := if data.length > 1024 then data.length - 1024 else data.length
          let r2 := scanScannerIssueMetasLoopGo file defs filt fuel (offset + (step : Int)) r.2
          (r.1 ++ r2.1, r2.2)
    else ([], seen)

/-- Model of `Parser.ScanScannerIssueMetas` (indexed discovery path). -/
def scanScannerIssueMetas (file : List Nat) (defs : Nat → Option IssueDefinition)
    (filt : Option (List Nat)) : List ScannerIssueMeta :=
  (scanScannerIssueMetasLoopGo file defs filt
    ((size file - (headerSize : Int)).toNat + 1) (headerSize : Int) []).1

/-- The per-hit loop of `ScanScannerIssueMetasRaw` (direct path). -/
def scanIssueMetasRawPositions (file : List Nat) (defs : Nat → Option IssueDefinition)
    (filt : Option (List Nat)) (offset : Int) :
    List Nat → List Nat → List ScannerIssueMeta × List Nat
  | [], seen => ([], seen)
  | i :: rest, seen =>
    let step := readScannerIssueMetaAtOffset file defs (offset + (i : Int)) filt seen
    let r := scanIssueMetasRawPositions file defs filt offset rest step.2
    (match step.1 with
     | some m => m :: r.1
     | none => r.1, r.2)

/-- The window loop of `ScanScannerIssueMetasRaw` (`fuel` as in the indexed
loop). -/
def scanScannerIssueMetasRawLoopGo (file : List Nat) (defs : Nat → Option IssueDefinition)
    (filt : Option (List Nat)) : Nat → Int → List Nat → List ScannerIssueMeta × List Nat
  | 0, _, seen => ([], seen)
  | fuel + 1, offset, seen =>
    if offset < size file then
      let remaining := size file - offset
      let readSize := if remaining < (bufSizeHTTP : Int) then remaining.toNat else bufSizeHTTP
      match readAt file offset readSize with
      | none => ([], seen)
      | some data =>
        if data.length = 0 then ([], seen)
        else
          let positions := sigPositionsFrom data scannerIssueEntrySignature 0
          let r := scanIssueMetasRawPositions file defs filt offset positions seen
          let step : Nat := if data.length > 1024 then data.length - 1024 else data.length
          let r2 := scanScannerIssueMetasRawLoopGo file defs filt fuel (offset + (step : Int)) r.2
          (r.1 ++ r2.1, r2.2)
    else ([], seen)

/-- Model of `Parser.ScanScannerIssueMetasRaw` (direct discovery path). -/
def scanScannerIssueMetasRaw (file : List Nat) (defs : Nat → Option IssueDefinition)
    (filt : Option (List Nat)) : List ScannerIssueMeta :=
  (scanScannerIssueMetasRawLoopGo file defs filt
    ((size file - (headerSize : Int)).toNat + 1) (headerSize : Int) []).1

/-- Model of `tryReadFixedUTF16BEStringRecord32`: succeeds only for the 8-byte
header `total_len = 0x48`, `char_len = 0x20`. -/
def tryReadFixedUTF16BEStringRecord32 (file : List Nat) (offset : Int) : Option (List Nat) :=
  if offset ≤ 0 ∨ offset + 8 > size file then none
  else
    match readAt file offset 8 with
    | none => none
    | some hdr =>
      if hdr.length < 8 then none
      else
        let totalLen := beRange hdr 0 4
        let charLen := beRange hdr 4 8
        if totalLen ≠ 0x48 ∨ charLen ≠ 0x20 then none
        else
          match readAt file (offset + 8) (charLen * 2) with
          | none => none
          | some data =>
            if data.length < charLen * 2 then none
            else some (decodeUTF16BE data)

/-- Model of `readFixedUTF16BEStringRecord32`: first success among the bases
`ptr`, `ptr+2`, `ptr−2`. -/
def readFixedUTF16BEStringRecord32 (file : List Nat) (ptr : Int) : Option (List Nat) :=
  match tryReadFixedUTF16BEStringRecord32 file ptr with
  | some s => some s
  | none =>
    match tryReadFixedUTF16BEStringRecord32 file (ptr + 2) with
    | some s => some s
    | none => tryReadFixedUTF16BEStringRecord32 file (ptr - 2)

/-- Model of `readScopeListWrapperPtr`: field `3` of the wide record behind
the scope container pointer. -/
def readScopeListWrapperPtr (file : List Nat) (scopeContainerPtr : Int) : Option Int :=
  match readV2RecordHeader file scopeContainerPtr with
  | none => none
  | some rec =>
    match fieldOffsetOf rec.Fields 3 with
    | none => none
    | some off => readPointerAt file (scopeContainerPtr + (off : Int))

/-- Model of `readScopeStringFromUITaskRecord`: field `0x02` points at a
container whose field `3` holds a list wrapper; its first pointer yields a
fixed-32 wide string. -/
def readScopeStringFromUITaskRecord (file : List Nat) (taskPtr : Int)
    (rec : TypedRecord) : Option (List Nat) :=
  match fieldOffsetOf rec.Fields 2 with
  | none => none
  | some fieldOff =>
    match readPointerAt file (taskPtr + (fieldOff : Int)) with
    | none => none
    | some scopeContainerPtr =>
      match readScopeListWrapperPtr file scopeContainerPtr with
      | none => none
      | some scopeListPtr =>
        match readListWrapper file scopeListPtr with
        | none => none
        | some cv =>
          if cv.1 = 0 then some []
          else
            match readPointerVector file cv.2 with
            | none => none
            | some ptrs =>
              if ptrs.length < cv.1 then none
              else
                let scopeRawPtr := ptrs.headD 0
                if scopeRawPtr ≤ 0 then none
                else
                  match readFixedUTF16BEStringRecord32 file scopeRawPtr with
                  | none => none
                  | some scope => some (trimSpace scope)

/-- Model of `readCustomNameFromUITaskRecord`: the wide string behind field
`0x08`. -/
def readCustomNameFromUITaskRecord (file : List Nat) (taskPtr : Int)
    (rec : TypedRecord) : Option (List Nat) :=
  match fieldOffsetOf rec.Fields 8 with
  | none => none
  | some fieldOff =>
    match readPointerAt file (taskPtr + (fieldOff : Int)) with
    | none => none
    | some ptr =>
      match readUTF16BEStringRecord file ptr with
      | none => none
      | some name => some (trimSpace name)

/-- Model of `hasNumericPrefix`: a digit followed by `". "`. -/
def hasNumericPrefix (s : List Nat) : Bool :=
  if s.length < 3 then false
  else if s.headD 0 < 48 ∨ s.headD 0 > 57 then false
  else (ascii ". ").isPrefixOf (s.drop 1)

/-- Model of `buildUITaskDisplayName`: returns `(scope, display name)`, or
`none` when the task is required to carry a scope (types 4 and 5) and none
resolved. -/
def buildUITaskDisplayName (file : List Nat) (taskPtr : Int) (rec : TypedRecord)
    (taskIndex : Nat) : Option (List Nat × List Nat) :=
  let scope := (readScopeStringFromUITaskRecord file taskPtr rec).getD []
  if rec.type = 4 then
    if scope = [] then none
    else some (scope, natDec taskIndex ++ ascii ". Live passive crawl from " ++ scope)
  else if rec.type = 5 then
    if scope = [] then none
    else some (scope, natDec taskIndex ++ ascii ". Live audit from " ++ scope)
  else if rec.type = 2 ∨ rec.type = 3 then
    let custom := (readCustomNameFromUITaskRecord file taskPtr rec).getD []
    if custom = [] then some (scope, natDec taskIndex ++ ascii ". Custom task")
    else if hasNumericPrefix custom then some (scope, custom)
    else some (scope, natDec taskIndex ++ ascii ". " ++ custom)
  else if scope ≠ [] then
    some (scope, natDec taskIndex ++ ascii ". Task (type=" ++ natDec rec.type ++ ascii ") " ++ scope)
  else some ([], natDec taskIndex ++ ascii ". Task (type=" ++ natDec rec.type ++ ascii ")")

/-- A UI task (`UITask`). -/
structure UITask where
  ID : Int
  type : Nat
  Name : List Nat
  Scope : List Nat
deriving DecidableEq, Repr

/-- The task loop of `ScanUITasks` (`i` is the zero-based task index). -/
def scanUITasksLoop (file : List Nat) : List Int → Nat → Option (List UITask)
  | [], _ => some []
  | taskPtr :: rest, i =>
    if taskPtr ≤ 0 then none
    else
      match readTypedRecordHeader file taskPtr with
      | none => none
      | some rec =>
        match buildUITaskDisplayName file taskPtr rec (i + 1) with
        | none => none
        | some sn =>
          match scanUITasksLoop file rest (i + 1) with
          | none => none
          | some tasks => some (⟨taskPtr, rec.type, sn.2, sn.1⟩ :: tasks)

/-- Model of `Parser.ScanUITasks`: read the root list wrapper at `0x1F4`
(capped at 256 tasks) and decode each task record. -/
def scanUITasks (file : List Nat) : Option (List UITask) :=
  match readListWrapper file 0x1f4 with
  | none => none
  | some cv =>
    if cv.1 = 0 then some []
    else if cv.1 > 256 then none
    else
      match readPointerVector file cv.2 with
      | none => none
      | some ptrs =>
        if ptrs.length < cv.1 then none
        else scanUITasksLoop file (ptrs.take cv.1) 0

/-- The acceptance predicate that `ScanHTTPRecords` implements for a hit at
buffer position `k`: position `0`, or a position `k ≥ 8` whose immediately
preceding byte is neither a newline nor NUL. -/
def recordedGuard (data : List Nat) (k : Nat) : Prop :=
  k = 0 ∨ (8 ≤ k ∧ data.getD (k - 1) 0 ≠ 10 ∧ data.getD (k - 1) 0 ≠ 0)

instance (data : List Nat) (k : Nat) : Decidable (recordedGuard data k) := by
  unfold recordedGuard
  infer_instance

/-- A pattern has no proper border: no nonempty proper suffix of it is also a
prefix (this holds for every HTTP method token followed by a space). -/
def noSelfOverlap (pat : List Nat) : Bool :=
  (List.range pat.length).all fun s => s == 0 || !((pat.drop s).isPrefixOf pat)

/-- Example file: header padding, eight framing bytes, then a request whose
method token is preceded by the byte `'X'`. -/
def exFileC1a : List Nat :=
  List.replicate 256 0 ++ ascii "XXXXXXXX" ++ ascii "GET /a HTTP/1.1\r\n\r\n"

/-- Example file: header padding, then a request whose method token is
preceded by a newline byte. -/
def exFileC1b : List Nat :=
  List.replicate 256 0 ++ ascii "XXXXXXX\n" ++ ascii "GET /a HTTP/1.1\r\n\r\n"

/-- Example file: a POST record followed by framing bytes and a GET record at
a higher offset. -/
def exFileC2 : List Nat :=
  List.replicate 256 0 ++ ascii "POST /a HTTP/1.1\r\n\r\nXXXXXXXX" ++
    ascii "GET /b HTTP/1.1\r\n\r\n"

/-- The property asserted of the wide-string decoder: layouts v1 then v2 are
tried at each of the bases `p`, `p+2`, `p-2` in that order with the first
success returned, and a successful candidate satisfies
`total_len = 8 + 2 * char_len`, yields the empty string when `char_len = 0`,
and never has `char_len > 1,000,000`. -/
def utf16DecoderSpec (file : List Nat) (p : Int) : Prop :=
  (∀ s, readUTF16BEStringRecord file p = some s ↔
      (tryReadUTF16BEStringRecordV1 file p = some s ∨
       (tryReadUTF16BEStringRecordV1 file p = none ∧
        tryReadUTF16BEStringRecordV2 file p = some s) ∨
       (tryReadUTF16BEStringRecordV1 file p = none ∧
        tryReadUTF16BEStringRecordV2 file p = none ∧
        tryReadUTF16BEStringRecordV1 file (p + 2) = some s) ∨
       (tryReadUTF16BEStringRecordV1 file p = none ∧
        tryReadUTF16BEStringRecordV2 file p = none ∧
        tryReadUTF16BEStringRecordV1 file (p + 2) = none ∧
        tryReadUTF16BEStringRecordV2 file (p + 2) = some s) ∨
       (tryReadUTF16BEStringRecordV1 file p = none ∧
        tryReadUTF16BEStringRecordV2 file p = none ∧
        tryReadUTF16BEStringRecordV1 file (p + 2) = none ∧
        tryReadUTF16BEStringRecordV2 file (p + 2) = none ∧
        tryReadUTF16BEStringRecordV1 file (p - 2) = some s) ∨
       (tryReadUTF16BEStringRecordV1 file p = none ∧
        tryReadUTF16BEStringRecordV2 file p = none ∧
        tryReadUTF16BEStringRecordV1 file (p + 2) = none ∧
        tryReadUTF16BEStringRecordV2 file (p + 2) = none ∧
        tryReadUTF16BEStringRecordV1 file (p - 2) = none ∧
        tryReadUTF16BEStringRecordV2 file (p - 2) = some s))) ∧
  (∀ start s, tryReadUTF16BEStringRecordV1 file start = some s →
      ∃ header, readAt file start 32 = some header ∧
        beRange header 20 28 = 8 + 2 * beRange header 28 32 ∧
        beRange header 28 32 ≤ 1000000 ∧
        (beRange header 28 32 = 0 → s = [])) ∧
  (∀ start s, tryReadUTF16BEStringRecordV2 file start = some s →
      ∃ header, readAt file start 30 = some header ∧
        beRange header 0x12 0x1a = 8 + 2 * beRange header 0x1a 0x1e ∧
        beRange header 0x1a 0x1e ≤ 1000000 ∧
        (beRange header 0x1a 0x1e = 0 → s = []))

/-- Example file holding a framed-wide-v1 string record "ABC" at offset 1. -/
def exFileC3 : List Nat :=
  [0] ++
  ([0, 2, 0, 0, 0x0a, 1, 0, 0x12, 0, 0, 0, 0] ++ [0, 0, 0, 0, 0, 0, 0, 0] ++
   [0, 0, 0, 0, 0, 0, 0, 14] ++ [0, 0, 0, 3]) ++
  [0, 65, 0, 66, 0, 67]

/-- Example file: an issue record at offset 1 with serial 0 and severity
byte 0 (invalid). -/
def exFileC5 : List Nat :=
  [0] ++ scannerIssueEntrySignature ++ List.replicate 94 0

/-- Example file: an issue record at offset 1 with serial 7 and severity
byte 0 (invalid). -/
def exFileC10 : List Nat :=
  [0] ++ scannerIssueEntrySignature ++ [0, 0, 0, 0, 0, 0, 0, 7] ++ List.replicate 86 0

/-- Invariant of one decode step on the seen-serial set: the set only grows,
and an emitted meta's serial is fresh and recorded. -/
def stepInv (seen : List Nat) (st : Option ScannerIssueMeta × List Nat) : Prop :=
  (∀ x ∈ seen, x ∈ st.2) ∧
  (∀ m, st.1 = some m → m.SerialNumber ∉ seen ∧ m.SerialNumber ∈ st.2)

/-- Invariant of a decode fold on the seen-serial set: the set only grows,
the emitted serials are pairwise distinct, and every emitted serial is
recorded in the final set and fresh relative to the initial set. -/
def foldInv (seen : List Nat) (r : List ScannerIssueMeta × List Nat) : Prop :=
  (∀ x ∈ seen, x ∈ r.2) ∧
  (r.1.map ScannerIssueMeta.SerialNumber).Nodup ∧
  (∀ m ∈ r.1, m.SerialNumber ∈ r.2 ∧ m.SerialNumber ∉ seen)

/-- Invariant of the evidence traversal on the visited set: the set only
grows by a block of new entries whose offsets are pairwise distinct and
absent from the initial set, each visited at depth at most 6. -/
def visitedInv (v v2 : List (Int × Nat)) : Prop :=
  ∃ newv, v2 = newv ++ v ∧ (newv.map Prod.fst).Nodup ∧
    (∀ p ∈ newv, p.2 ≤ 6) ∧
    (∀ p ∈ newv, p.1 ∉ v.map Prod.fst)

/-- The first `Host` header value selected by the loop of
`extractHostFromHeaders`: the value list of the first key comparing ASCII
case-insensitively equal to `Host` that carries at least one value. -/
def firstHostValue : List (List Nat × List (List Nat)) → Option (List Nat)
  | [] => none
  | (key, values) :: rest =>
    if equalFold key (ascii "Host") ∧ values ≠ [] then some (values.headD [])
    else firstHostValue rest

/-- The URL text asserted of `buildURL` for an entry with a nonempty host:
scheme (`https` exactly at port 443), host, a literal `:port` token unless the
port is 80 or 443, the path, and `?query` exactly when the query string is
nonempty. -/
def urlOf (e : HTTPEntry) : List Nat :=
  (if e.Port = 443 then ascii "https" else ascii "http") ++ ascii "://" ++
    e.Host ++
    (if e.Port = 80 ∨ e.Port = 443 then [] else ascii ":" ++ intToString e.Port) ++
    e.Path ++
    (if e.QueryString = [] then [] else ascii "?" ++ e.QueryString)

/-- The property asserted of every entry the history pipeline produces: it is
parsed from a scanned record location whose request offset is the entry id
(as numbers whenever the file size fits an int64); an empty host leaves the
URL empty; a nonempty host makes the URL exactly `urlOf`; in particular the
`:port` token occurs literally in the URL for ports other than 80 and 443;
and the port chosen by `extractHostFromHeaders` defaults to 80 whenever the
selected `Host` value carries no colon. -/
def parsedEntrySpec (file : List Nat) (e : HTTPEntry) : Prop :=
  (∃ loc ∈ scanHTTPRecords file,
      parseHTTPEntry file loc = some e ∧ e.ID = toUint64 loc.RequestOffset ∧
      (size file ≤ 2 ^ 63 → (e.ID : Int) = loc.RequestOffset)) ∧
  (e.Host = [] → e.URL = []) ∧
  (e.Host ≠ [] → e.URL = urlOf e) ∧
  (e.Host ≠ [] → e.Port ≠ 80 → e.Port ≠ 443 →
      List.IsInfix (ascii ":" ++ intToString e.Port) e.URL) ∧
  (∀ entry hdrs v, firstHostValue hdrs = some v → bytesIndex v [58] = none →
      (extractHostFromHeaders entry hdrs).Port = 80)

/-- Example file: header padding then one request carrying a `Host` header
with an explicit port, a path and a query string. -/
def exFileC7 : List Nat :=
  List.replicate 256 0 ++ ascii "GET /a?b=1 HTTP/1.1\r\nHost: h:8443\r\n\r\n"

/-- Big-endian u32 byte layout, used to lay out example files. -/
def be32 (n : Nat) : List Nat :=
  [n / 16777216 % 256, n / 65536 % 256, n / 256 % 256, n % 256]

/-- Big-endian u64 byte layout, used to lay out example files. -/
def be64 (n : Nat) : List Nat := be32 (n / 4294967296) ++ be32 (n % 4294967296)

/-- The display-name table asserted of `buildUITaskDisplayName` for a task
record `rec` at one-based index `i` yielding scope/name pair `sn`: type 4
gives "i. Live passive crawl from scope" and type 5 "i. Live audit from
scope", both requiring a scope; types 2 and 3 use the custom wide-string
name, kept verbatim when it already starts with a digit and ". ", prefixed by
the index otherwise, with "i. Custom task" as fallback; any other type gives
"i. Task (type=T)" with the scope appended when present. -/
def uiTaskNameTable (file : List Nat) (taskPtr : Int) (rec : TypedRecord)
    (i : Nat) (sn : List Nat × List Nat) : Prop :=
  let scope := (readScopeStringFromUITaskRecord file taskPtr rec).getD []
  (rec.type = 4 → scope ≠ [] ∧
      sn = (scope, natDec i ++ ascii ". Live passive crawl from " ++ scope)) ∧
  (rec.type = 5 → scope ≠ [] ∧
      sn = (scope, natDec i ++ ascii ". Live audit from " ++ scope)) ∧
  (rec.type = 2 ∨ rec.type = 3 →
    let custom := (readCustomNameFromUITaskRecord file taskPtr rec).getD []
    sn.1 = scope ∧
    (custom = [] → sn.2 = natDec i ++ ascii ". Custom task") ∧
    (custom ≠ [] → hasNumericPrefix custom = true → sn.2 = custom) ∧
    (custom ≠ [] → hasNumericPrefix custom = false →
        sn.2 = natDec i ++ ascii ". " ++ custom)) ∧
  (rec.type ≠ 4 → rec.type ≠ 5 → rec.type ≠ 2 → rec.type ≠ 3 →
    (scope ≠ [] →
        sn = (scope, natDec i ++ ascii ". Task (type=" ++ natDec rec.type ++
          ascii ") " ++ scope)) ∧
    (scope = [] →
        sn = ([], natDec i ++ ascii ". Task (type=" ++ natDec rec.type ++
          ascii ")")))

/-- The property asserted of a UI task list decoded from a file: every task
carries the record type read at its pointer and a display name built per the
table, and a missing scope makes every task of type 4 or 5 fail. -/
def uiTasksSpec (file : List Nat) (tasks : List UITask) : Prop :=
  (∀ k (hk : k < tasks.length), ∃ rec,
      readTypedRecordHeader file (tasks.get ⟨k, hk⟩).ID = some rec ∧
      (tasks.get ⟨k, hk⟩).type = rec.type ∧
      uiTaskNameTable file (tasks.get ⟨k, hk⟩).ID rec (k + 1)
        ((tasks.get ⟨k, hk⟩).Scope, (tasks.get ⟨k, hk⟩).Name)) ∧
  (∀ taskPtr rec i, rec.type = 4 ∨ rec.type = 5 →
      (readScopeStringFromUITaskRecord file taskPtr rec).getD [] = [] →
      buildUITaskDisplayName file taskPtr rec i = none)

/-- Example file: a UI task list at 0x1F4 with one pointer to a compact
type-5 task record whose scope chain resolves to the 32-character fixed wide
string "in-scope URLs" (space-padded). -/
def exFileC6 : List Nat :=
  List.replicate 500 0 ++
  (listWrapperSig ++ be32 1 ++ be64 522) ++
  (be32 16 ++ be32 1 ++ be64 538) ++
  ([0, 5, 0, 1, 2, 0, 7] ++ be64 553) ++
  ([0, 0, 0, 1, 3, 0, 7] ++ be64 568) ++
  (listWrapperSig ++ be32 1 ++ be64 590) ++
  (be32 16 ++ be32 1 ++ be64 606) ++
  (be32 0x48 ++ be32 0x20 ++
    ((ascii "in-scope URLs" ++ List.replicate 19 32).map fun c => [0, c]).flatten)

/-! Properties of the byte-search primitive. -/

theorem occursAt_zero_iff (data pat : List Nat) : occursAt data pat 0 ↔ pat <+: data := by
  simp [occursAt]

theorem occursAt_cons_succ (c : Nat) (data pat : List Nat) (m : Nat) :
    occursAt (c :: data) pat (m + 1) ↔ occursAt data pat m := by
  simp [occursAt]

theorem occursAt_length_le {data pat : List Nat} {k : Nat} (h : occursAt data pat k) :
    k + pat.length ≤ data.length ∨ pat = [] := by
  rcases pat with _ | ⟨b, bs⟩
  · exact Or.inr rfl
  · left
    have h' : (b :: bs) <+: data.drop k := h
    have hlen := h'.length_le
    rw [List.length_drop] at hlen
    have hk : k < data.length := by
      by_contra hk
      rw [List.drop_eq_nil_of_le (by omega)] at h'
      exact absurd (List.prefix_nil.mp h') (by simp)
    simp only [List.length_cons] at hlen ⊢
    omega

theorem bytesIndex_none_iff (data pat : List Nat) :
    bytesIndex data pat = none ↔ ∀ m, ¬ occursAt data pat m := by
  induction data with
  | nil =>
    constructor
    · intro h m hocc
      have hp : pat = [] := List.prefix_nil.mp (by simpa [occursAt] using hocc)
      subst hp
      rw [bytesIndex] at h
      simp [List.isPrefixOf] at h
    · intro h
      rw [bytesIndex]
      have hp : ¬ pat.isPrefixOf ([] : List Nat) = true := by
        intro hp
        exact h 0 (by simpa [occursAt] using List.isPrefixOf_iff_prefix.mp hp)
      rw [if_neg hp]
  | cons c rest ih =>
    by_cases hp : pat.isPrefixOf (c :: rest) = true
    · rw [bytesIndex, if_pos hp]
      constructor
      · intro h; exact absurd h (by simp)
      · intro h
        exact absurd (by simpa [occursAt] using List.isPrefixOf_iff_prefix.mp hp) (h 0)
    · rw [bytesIndex, if_neg hp]
      cases hbi : bytesIndex rest pat with
      | none =>
        simp only [Option.map_none', true_iff]
        intro m hocc
        match m with
        | 0 => exact hp (List.isPrefixOf_iff_prefix.mpr (by simpa [occursAt] using hocc))
        | m' + 1 =>
          exact (ih.mp hbi) m' ((occursAt_cons_succ c rest pat m').mp hocc)
      | some a =>
        simp only [Option.map_some']
        constructor
        · intro h; exact absurd h (by simp)
        · intro h
          have := ih.mpr fun m hm => h (m + 1) ((occursAt_cons_succ c rest pat m).mpr hm)
          rw [hbi] at this
          exact absurd this (by simp)

theorem bytesIndex_some_iff (data pat : List Nat) (n : Nat) :
    bytesIndex data pat = some n ↔
      occursAt data pat n ∧ ∀ m < n, ¬ occursAt data pat m := by
  induction data generalizing n with
  | nil =>
    by_cases hp : pat = []
    · subst hp
      have hbi : bytesIndex ([] : List Nat) ([] : List Nat) = some 0 := rfl
      rw [hbi]
      constructor
      · intro h
        have hn : 0 = n := by simpa using h
        subst hn
        exact ⟨by simp [occursAt], by omega⟩
      · rintro ⟨-, hmin⟩
        rcases Nat.eq_zero_or_pos n with h0 | h0
        · subst h0; rfl
        · exact absurd (by simp [occursAt]) (hmin 0 h0)
    · have hpre : ¬ pat.isPrefixOf ([] : List Nat) = true := by
        intro hc
        exact hp (List.prefix_nil.mp (List.isPrefixOf_iff_prefix.mp hc))
      rw [bytesIndex, if_neg hpre]
      constructor
      · intro h; exact absurd h (by simp)
      · rintro ⟨hocc, -⟩
        exact absurd (List.prefix_nil.mp (by simpa [occursAt] using hocc)) hp
  | cons c rest ih =>
    by_cases hp : pat.isPrefixOf (c :: rest) = true
    · rw [bytesIndex, if_pos hp]
      constructor
      · intro h
        have hn : 0 = n := by simpa using h
        subst hn
        exact ⟨by simpa [occursAt] using List.isPrefixOf_iff_prefix.mp hp, by omega⟩
      · rintro ⟨hocc, hmin⟩
        rcases Nat.eq_zero_or_pos n with h0 | h0
        · subst h0; rfl
        · exact absurd (by simpa [occursAt] using List.isPrefixOf_iff_prefix.mp hp) (hmin 0 h0)
    · rw [bytesIndex, if_neg hp]
      cases hbi : bytesIndex rest pat with
      | none =>
        simp only [Option.map_none']
        constructor
        · intro h; exact absurd h (by simp)
        · rintro ⟨hocc, -⟩
          match n, hocc with
          | 0, hocc =>
            exact absurd (List.isPrefixOf_iff_prefix.mpr (by simpa [occursAt] using hocc)) hp
          | n' + 1, hocc =>
            exact absurd ((occursAt_cons_succ c rest pat n').mp hocc)
              (((bytesIndex_none_iff rest pat).mp hbi) n')
      | some a =>
        simp only [Option.map_some']
        obtain ⟨hocca, hmina⟩ := (ih a).mp hbi
        constructor
        · intro h
          have hn : n = a + 1 := by simpa using h.symm
          subst hn
          refine ⟨(occursAt_cons_succ c rest pat a).mpr hocca, ?_⟩
          intro m hm
          match m with
          | 0 =>
            intro hocc0
            exact hp (List.isPrefixOf_iff_prefix.mpr (by simpa [occursAt] using hocc0))
          | m' + 1 =>
            intro hoccm
            exact hmina m' (by omega) ((occursAt_cons_succ c rest pat m').mp hoccm)
        · rintro ⟨hocc, hmin⟩
          match n with
          | 0 =>
            exact absurd (List.isPrefixOf_iff_prefix.mpr
              (by simpa [occursAt] using hocc)) hp
          | n' + 1 =>
            have : bytesIndex rest pat = some n' := by
              rw [ih n']
              refine ⟨(occursAt_cons_succ c rest pat n').mp hocc, ?_⟩
              intro m hm hoccm
              exact hmin (m + 1) (by omega) ((occursAt_cons_succ c rest pat m).mpr hoccm)
            rw [hbi] at this
            have ha : a = n' := by simpa using this
            subst ha
            rfl

theorem occursAt_drop (data pat : List Nat) (idx m : Nat) :
    occursAt (data.drop idx) pat m ↔ occursAt data pat (idx + m) := by
  unfold occursAt
  rw [List.drop_drop]

theorem noSelfOverlap_gap {pat : List Nat} (hso : noSelfOverlap pat = true)
    {data : List Nat} {k k' : Nat} (h1 : occursAt data pat k)
    (h2 : occursAt data pat k') (hlt : k < k') (hlt2 : k' < k + pat.length) :
    False := by
  obtain ⟨t, ht⟩ := (h1 : pat <+: data.drop k)
  set s := k' - k with hs
  have hs0 : 0 < s := by omega
  have hslen : s < pat.length := by omega
  have hd : data.drop k' = pat.drop s ++ t := by
    have h1' : data.drop k' = (data.drop k).drop s := by
      rw [List.drop_drop]
      congr 1
      omega
    rw [h1', ← ht, List.drop_append_eq_append_drop]
    have h0 : s - pat.length = 0 := by omega
    rw [h0, List.drop_zero]
  have h2' : pat <+: pat.drop s ++ t := by rw [← hd]; exact h2
  obtain ⟨u, hu⟩ := h2'
  have hlen_ds : (pat.drop s).length = pat.length - s := by simp
  have htake : pat.take (pat.length - s) = pat.drop s := by
    have e1 : (pat ++ u).take (pat.length - s) = pat.take (pat.length - s) :=
      List.take_append_of_le_length (by omega)
    have e2 : (pat.drop s ++ t).take (pat.length - s) = pat.drop s := by
      rw [← hlen_ds]
      exact List.take_left _ _
    rw [hu, e2] at e1
    exact e1.symm
  have hpre : (pat.drop s).isPrefixOf pat = true :=
    List.isPrefixOf_iff_prefix.mpr (htake ▸ List.take_prefix _ _)
  have hall := hso
  rw [noSelfOverlap, List.all_eq_true] at hall
  have hcontr := hall s (List.mem_range.mpr hslen)
  rw [hpre] at hcontr
  simp at hcontr
  omega

theorem patternHitsFromGo_mem_iff (data pat : List Nat) (hne : pat ≠ [])
    (hso : noSelfOverlap pat = true) :
    ∀ fuel idx k, data.length - idx < fuel →
      (k ∈ patternHitsFromGo data pat fuel idx ↔
        idx ≤ k ∧ occursAt data pat k ∧ recordedGuard data k) := by
  have hplen : 0 < pat.length := List.length_pos.mpr hne
  intro fuel
  induction fuel with
  | zero =>
    intro idx k h
    omega
  | succ fuel ih =>
    intro idx k hfuel
    cases hbi : bytesIndex (data.drop idx) pat with
    | none =>
      simp only [patternHitsFromGo, hbi, List.not_mem_nil, false_iff]
      rintro ⟨hle, hocc, -⟩
      have hocc' : occursAt (data.drop idx) pat (k - idx) := by
        rw [occursAt_drop]
        have he : idx + (k - idx) = k := by omega
        rw [he]
        exact hocc
      exact (bytesIndex_none_iff _ _).mp hbi (k - idx) hocc'
    | some pos =>
      have hfirst := (bytesIndex_some_iff (data.drop idx) pat pos).mp hbi
      have hocc0 : occursAt data pat (idx + pos) := (occursAt_drop data pat idx pos).mp hfirst.1
      rcases occursAt_length_le hocc0 with hbound | hemp
      swap
      · exact absurd hemp hne
      have hmin : ∀ m, idx ≤ m → m < idx + pos → ¬ occursAt data pat m := by
        intro m hm1 hm2 hocc
        have hocc' : occursAt (data.drop idx) pat (m - idx) := by
          rw [occursAt_drop]
          have he : idx + (m - idx) = m := by omega
          rw [he]
          exact hocc
        exact hfirst.2 (m - idx) (by omega) hocc'
      have hhits : ∀ j, (j ∈ (if idx + pos > 0 ∧ data.getD (idx + pos - 1) 0 ≠ 10 ∧
            data.getD (idx + pos - 1) 0 ≠ 0 ∧ idx + pos ≥ 8 then [idx + pos]
          else if idx + pos = 0 then [idx + pos] else []) ↔
          j = idx + pos ∧ recordedGuard data j) := by
        intro j
        split_ifs with h1 h2
        · simp only [List.mem_singleton]
          constructor
          · rintro rfl
            exact ⟨rfl, Or.inr ⟨by omega, h1.2.1, h1.2.2.1⟩⟩
          · rintro ⟨rfl, -⟩
            rfl
        · simp only [List.mem_singleton]
          constructor
          · rintro rfl
            exact ⟨rfl, Or.inl h2⟩
          · rintro ⟨rfl, -⟩
            rfl
        · simp only [List.not_mem_nil, false_iff]
          rintro ⟨rfl, hgrd⟩
          rcases hgrd with h0 | ⟨h8, h10, hnul⟩
          · exact h2 h0
          · exact h1 ⟨by omega, h10, hnul, h8⟩
      by_cases hbreak : idx + pos + pat.length ≥ data.length
      · simp only [patternHitsFromGo, hbi, if_pos hbreak]
        rw [hhits k]
        constructor
        · rintro ⟨rfl, hgrd⟩
          exact ⟨by omega, hocc0, hgrd⟩
        · rintro ⟨hle, hocc, hgrd⟩
          rcases Nat.lt_trichotomy k (idx + pos) with hk | hk | hk
          · exact absurd hocc (hmin k hle hk)
          · exact ⟨hk, hgrd⟩
          · exfalso
            rcases occursAt_length_le hocc with hb | hb
            · omega
            · exact hne hb
      · simp only [patternHitsFromGo, hbi, if_neg hbreak, List.mem_append]
        rw [hhits k, ih (idx + pos + pat.length) k (by omega)]
        constructor
        · rintro (⟨rfl, hgrd⟩ | ⟨hle, hocc, hgrd⟩)
          · exact ⟨by omega, hocc0, hgrd⟩
          · exact ⟨by omega, hocc, hgrd⟩
        · rintro ⟨hle, hocc, hgrd⟩
          rcases Nat.lt_trichotomy k (idx + pos) with hk | hk | hk
          · exact absurd hocc (hmin k hle hk)
          · exact Or.inl ⟨hk, hgrd⟩
          · right
            have hksep : idx + pos + pat.length ≤ k := by
              by_contra hlt2
              exact noSelfOverlap_gap hso hocc0 hocc hk (by omega)
            exact ⟨hksep, hocc, hgrd⟩

theorem patternHitsFrom_mem_iff (data pat : List Nat) (hne : pat ≠ [])
    (hso : noSelfOverlap pat = true) (idx k : Nat) :
    k ∈ patternHitsFrom data pat idx ↔
      idx ≤ k ∧ occursAt data pat k ∧ recordedGuard data k :=
  patternHitsFromGo_mem_iff data pat hne hso (data.length + 1) idx k (by omega)

theorem scanBufferRequestStarts_mem_iff (data : List Nat) (k : Nat) :
    k ∈ scanBufferRequestStarts data ↔
      (∃ pat ∈ httpMethodPatterns, occursAt data pat k) ∧ recordedGuard data k := by
  have hpats : ∀ pat ∈ httpMethodPatterns, pat ≠ [] ∧ noSelfOverlap pat = true := by decide
  unfold scanBufferRequestStarts
  rw [List.mem_flatten]
  constructor
  · rintro ⟨l, hl, hk⟩
    rw [List.mem_map] at hl
    obtain ⟨pat, hpat, rfl⟩ := hl
    obtain ⟨hne, hso⟩ := hpats pat hpat
    obtain ⟨-, hocc, hgrd⟩ := (patternHitsFrom_mem_iff data pat hne hso 0 k).mp hk
    exact ⟨⟨pat, hpat, hocc⟩, hgrd⟩
  · rintro ⟨⟨pat, hpat, hocc⟩, hgrd⟩
    obtain ⟨hne, hso⟩ := hpats pat hpat
    exact ⟨patternHitsFrom data pat 0, List.mem_map_of_mem _ hpat,
      (patternHitsFrom_mem_iff data pat hne hso 0 k).mpr ⟨Nat.zero_le k, hocc, hgrd⟩⟩

set_option maxRecDepth 100000 in
/-- C1: counterexample.  Over `exFileC1a`, `ScanHTTPRecords` records the
`"GET "` occurrence at buffer position `8` of its (single) read window even
though the preceding byte is `'X'` (88), neither newline nor NUL; and over
`exFileC1b` the `"GET "` occurrence at buffer position `8` is preceded by a
newline (10) yet is NOT recorded.  Both refute the claim's stated acceptance
condition (`k == 0`, or `k ≥ 8` with preceding byte newline or NUL). -/
theorem scanHTTPRecords_request_start_acceptance_counterexample :
    (scanHTTPRecords exFileC1a).map HTTPRecordLocation.RequestOffset = [264] ∧
    8 ∈ scanBufferRequestStarts (exFileC1a.drop 256) ∧
    (exFileC1a.drop 256).getD 7 0 = 88 ∧
    scanBufferRequestStarts (exFileC1b.drop 256) = [] ∧
    occursAt (exFileC1b.drop 256) (ascii "GET ") 8 ∧
    (exFileC1b.drop 256).getD 7 0 = 10 := by
  decide

/-- C1 (amended): in `ScanHTTPRecords`, an occurrence of an HTTP method token
at position `k` of the current read buffer is recorded as a request start
exactly when `k = 0`, or when `k ≥ 8` and the immediately preceding byte is
neither a newline nor NUL; consequently every recorded request start either
lies at the start of the scan window or is preceded by a byte that is neither
newline nor NUL. -/
theorem scanHTTPRecords_request_start_acceptance (data : List Nat) (k : Nat) :
    k ∈ scanBufferRequestStarts data ↔
      ((∃ pat ∈ httpMethodPatterns, occursAt data pat k) ∧
        (k = 0 ∨ (8 ≤ k ∧ data.getD (k - 1) 0 ≠ 10 ∧ data.getD (k - 1) 0 ≠ 0))) := by
  rw [scanBufferRequestStarts_mem_iff]
  rfl

/-! Properties of the window scan and the history pipeline. -/

theorem readAt_eq_some {file : List Nat} {offset : Int} {n : Nat} {data : List Nat}
    (h : readAt file offset n = some data) :
    0 ≤ offset ∧ offset < size file ∧ data = (file.drop offset.toNat).take n := by
  unfold readAt at h
  split at h
  · rename_i hcond
    exact ⟨hcond.1, hcond.2, by simpa using h.symm⟩
  · simp at h

theorem readAt_length_le {file : List Nat} {offset : Int} {n : Nat} {data : List Nat}
    (h : readAt file offset n = some data) :
    (data.length : Int) + offset ≤ size file := by
  obtain ⟨h0, h1, rfl⟩ := readAt_eq_some h
  have hlen : ((file.drop offset.toNat).take n).length ≤ file.length - offset.toNat := by
    simp [List.length_take, List.length_drop]
  unfold size at h1 ⊢
  omega

theorem httpMethodPatterns_facts :
    ∀ pat ∈ httpMethodPatterns, pat ≠ [] ∧ noSelfOverlap pat = true := by
  decide

theorem scanBufferRequestStarts_lt_length {data : List Nat} {k : Nat}
    (h : k ∈ scanBufferRequestStarts data) : k < data.length := by
  obtain ⟨⟨pat, hpat, hocc⟩, -⟩ := (scanBufferRequestStarts_mem_iff data k).mp h
  obtain ⟨hne, -⟩ := httpMethodPatterns_facts pat hpat
  have hpl : 0 < pat.length := List.length_pos.mpr hne
  rcases occursAt_length_le hocc with hb | hb
  · omega
  · exact absurd hb hne

theorem scanHTTPOffsetsLoopGo_bounds (file : List Nat) :
    ∀ fuel offset o, o ∈ scanHTTPOffsetsLoopGo file fuel offset →
      offset ≤ o ∧ o < size file := by
  intro fuel
  induction fuel with
  | zero =>
    intro offset o h
    simp [scanHTTPOffsetsLoopGo] at h
  | succ fuel ih =>
    intro offset o h
    simp only [scanHTTPOffsetsLoopGo] at h
    split at h
    · split at h
      · simp at h
      · rename_i data hra
        split at h
        · simp at h
        · rw [List.mem_append] at h
          rcases h with h | h
          · rw [List.mem_map] at h
            obtain ⟨k, hk, rfl⟩ := h
            have hklt := scanBufferRequestStarts_lt_length hk
            have hle := readAt_length_le hra
            constructor
            · omega
            · omega
          · obtain ⟨h1, h2⟩ := ih _ o h
            have hstep : (0 : Int) ≤ ((if data.length > 20 then data.length - 20
                else data.length : Nat) : Int) := by positivity
            exact ⟨by omega, h2⟩
    · simp at h

theorem dedupGo_mem (x : Int) : ∀ (l seen : List Int),
    (x ∈ dedupGo seen l ↔ x ∈ l ∧ x ∉ seen) := by
  intro l
  induction l with
  | nil => intro seen; simp [dedupGo]
  | cons y ys ih =>
    intro seen
    rw [dedupGo]
    split
    · rename_i hy
      rw [ih seen]
      constructor
      · rintro ⟨h1, h2⟩
        exact ⟨List.mem_cons_of_mem y h1, h2⟩
      · rintro ⟨h1, h2⟩
        rcases List.mem_cons.mp h1 with rfl | h1
        · exact absurd hy h2
        · exact ⟨h1, h2⟩
    · rename_i hy
      rw [List.mem_cons, ih (y :: seen)]
      constructor
      · rintro (rfl | ⟨h1, h2⟩)
        · exact ⟨List.mem_cons_self _ _, hy⟩
        · refine ⟨List.mem_cons_of_mem y h1, fun hc => h2 (List.mem_cons_of_mem y hc)⟩
      · rintro ⟨h1, h2⟩
        rcases List.mem_cons.mp h1 with rfl | h1
        · exact Or.inl rfl
        · by_cases hxy : x = y
          · exact Or.inl hxy
          · exact Or.inr ⟨h1, fun hc => by
              rcases List.mem_cons.mp hc with h | h
              · exact hxy h
              · exact h2 h⟩

theorem dedupGo_nodup : ∀ (l seen : List Int), (dedupGo seen l).Nodup := by
  intro l
  induction l with
  | nil => intro seen; simp [dedupGo]
  | cons y ys ih =>
    intro seen
    rw [dedupGo]
    split
    · exact ih seen
    · refine List.nodup_cons.mpr ⟨fun hc => ?_, ih (y :: seen)⟩
      exact ((dedupGo_mem y ys (y :: seen)).mp hc).2 (List.mem_cons_self y seen)

theorem deduplicateOffsets_nodup (l : List Int) : (deduplicateOffsets l).Nodup :=
  dedupGo_nodup l []

theorem deduplicateOffsets_mem (l : List Int) (x : Int) :
    x ∈ deduplicateOffsets l ↔ x ∈ l := by
  unfold deduplicateOffsets
  rw [dedupGo_mem]
  simp

theorem parseRecordAtOffset_RequestOffset (file : List Nat) (offset : Int) :
    (parseRecordAtOffset file offset).RequestOffset = offset := by
  unfold parseRecordAtOffset
  dsimp only
  repeat' split
  all_goals rfl

theorem parseRequestLine_ID (e : HTTPEntry) (l : List Nat) :
    (parseRequestLine e l).ID = e.ID := by
  unfold parseRequestLine
  repeat' split
  all_goals rfl

theorem parseStatusLine_ID (e : HTTPEntry) (l : List Nat) :
    (parseStatusLine e l).ID = e.ID := by
  unfold parseStatusLine
  repeat' split
  all_goals rfl

theorem extractHostFromHeaders_ID (e : HTTPEntry) :
    ∀ hs, (extractHostFromHeaders e hs).ID = e.ID := by
  intro hs
  induction hs with
  | nil => rfl
  | cons kv rest ih =>
    obtain ⟨k, v⟩ := kv
    rw [extractHostFromHeaders]
    split
    · dsimp only
      split <;> rfl
    · exact ih

theorem extractContentTypeLoop_ID (e : HTTPEntry) :
    ∀ hs, (extractContentTypeLoop e hs).ID = e.ID := by
  intro hs
  induction hs with
  | nil => rfl
  | cons kv rest ih =>
    obtain ⟨k, v⟩ := kv
    rw [extractContentTypeLoop]
    split
    · dsimp only
    · exact ih

theorem extractContentLengthLoop_ID (e : HTTPEntry) :
    ∀ hs, (extractContentLengthLoop e hs).ID = e.ID := by
  intro hs
  induction hs with
  | nil => rfl
  | cons kv rest ih =>
    obtain ⟨k, v⟩ := kv
    rw [extractContentLengthLoop]
    split
    · rfl
    · exact ih

theorem extractContentTypeFromHeaders_ID (e : HTTPEntry) (hs : List (List Nat × List (List Nat))) :
    (extractContentTypeFromHeaders e hs).ID = e.ID := by
  unfold extractContentTypeFromHeaders
  rw [extractContentLengthLoop_ID, extractContentTypeLoop_ID]

theorem buildURL_ID (e : HTTPEntry) : (buildURL e).ID = e.ID := by
  unfold buildURL
  dsimp only
  repeat' split
  all_goals rfl

theorem parseHTTPEntryResp_some (file : List Nat) (loc : HTTPRecordLocation)
    (entry : HTTPEntry) :
    ∃ e, parseHTTPEntryResp file loc entry = some e ∧ e.ID = entry.ID := by
  unfold parseHTTPEntryResp
  dsimp only
  split
  · split
    · exact ⟨entry, rfl, rfl⟩
    · refine ⟨_, rfl, ?_⟩
      rw [buildURL_ID, extractContentTypeFromHeaders_ID, parseStatusLine_ID]
  · exact ⟨_, rfl, buildURL_ID entry⟩

theorem parseHTTPEntry_some_of_valid {file : List Nat} {loc : HTTPRecordLocation}
    (h0 : 0 ≤ loc.RequestOffset) (h1 : loc.RequestOffset < size file) :
    ∃ e, parseHTTPEntry file loc = some e ∧ e.ID = toUint64 loc.RequestOffset := by
  unfold parseHTTPEntry
  dsimp only
  split
  · have hra : readAt file loc.RequestOffset loc.RequestLength.toNat =
        some ((file.drop loc.RequestOffset.toNat).take loc.RequestLength.toNat) := by
      unfold readAt
      rw [if_pos ⟨h0, h1⟩]
    rw [hra]
    obtain ⟨e, he, hid⟩ := parseHTTPEntryResp_some file loc
      (extractHostFromHeaders
        (parseRequestLine
          { emptyHTTPEntry with
              ID := toUint64 loc.RequestOffset
              Request := some (parseHTTPMessage
                ((file.drop loc.RequestOffset.toNat).take loc.RequestLength.toNat)) }
          (parseHTTPMessage
            ((file.drop loc.RequestOffset.toNat).take loc.RequestLength.toNat)).StartLine)
        (parseHTTPMessage
          ((file.drop loc.RequestOffset.toNat).take loc.RequestLength.toNat)).Headers)
    refine ⟨e, he, ?_⟩
    rw [hid, extractHostFromHeaders_ID, parseRequestLine_ID]
  · obtain ⟨e, he, hid⟩ := parseHTTPEntryResp_some file loc
      { emptyHTTPEntry with ID := toUint64 loc.RequestOffset }
    exact ⟨e, he, hid⟩

theorem scanHTTPRecords_valid (file : List Nat) :
    ∀ loc ∈ scanHTTPRecords file,
      0 ≤ loc.RequestOffset ∧ loc.RequestOffset < size file ∧ 0 < loc.RequestLength := by
  intro loc hloc
  unfold scanHTTPRecords at hloc
  dsimp only at hloc
  rw [List.mem_filter] at hloc
  obtain ⟨hmem, hpos⟩ := hloc
  rw [List.mem_map] at hmem
  obtain ⟨o, ho, rfl⟩ := hmem
  rw [deduplicateOffsets_mem] at ho
  unfold scanHTTPOffsetsLoop at ho
  obtain ⟨h1, h2⟩ := scanHTTPOffsetsLoopGo_bounds file _ _ _ ho
  rw [parseRecordAtOffset_RequestOffset]
  have hsize : (headerSize : Int) = 256 := rfl
  refine ⟨by omega, h2, ?_⟩
  simpa using hpos

theorem filterMap_length_eq {α β : Type} (f : α → Option β) :
    ∀ l : List α, (∀ x ∈ l, (f x).isSome) → (l.filterMap f).length = l.length := by
  intro l
  induction l with
  | nil => intro _; rfl
  | cons x xs ih =>
    intro h
    rw [List.filterMap_cons]
    cases hfx : f x with
    | none =>
      have := h x (List.mem_cons_self _ _)
      rw [hfx] at this
      simp at this
    | some y =>
      simp only [List.length_cons]
      rw [ih fun a ha => h a (List.mem_cons_of_mem _ ha)]

theorem filterMap_map_of_some {α β γ : Type} (f : α → Option β) (g : β → γ) (h : α → γ) :
    ∀ l : List α, (∀ x ∈ l, ∃ y, f x = some y ∧ g y = h x) →
      (l.filterMap f).map g = l.map h := by
  intro l
  induction l with
  | nil => intro _; rfl
  | cons x xs ih =>
    intro hall
    obtain ⟨y, hy, hgy⟩ := hall x (List.mem_cons_self _ _)
    rw [List.filterMap_cons, hy]
    simp only [List.map_cons, hgy]
    rw [ih fun a ha => hall a (List.mem_cons_of_mem _ ha)]

theorem scanHTTPRecords_offsets_nodup (file : List Nat) :
    ((scanHTTPRecords file).map HTTPRecordLocation.RequestOffset).Nodup := by
  unfold scanHTTPRecords
  dsimp only
  refine List.Nodup.sublist ((List.filter_sublist _).map _) ?_
  rw [List.map_map]
  have hfun : (HTTPRecordLocation.RequestOffset ∘ parseRecordAtOffset file) = id :=
    funext fun o => parseRecordAtOffset_RequestOffset file o
  rw [hfun, List.map_id]
  exact deduplicateOffsets_nodup _

set_option maxRecDepth 1000000 in
/-- C2: counterexample.  On `exFileC2` the history operation returns the GET
entry (request offset 284) before the POST entry (request offset 256),
because offsets are collected pattern-by-pattern and never sorted; the list
of entry IDs is `[284, 256]`, which is not in ascending order. -/
theorem httpHistory_ascending_counterexample :
    ((httpHistoryOp exFileC2 emptyCache).1.map HTTPEntry.ID) = [284, 256] ∧
    ¬ ((httpHistoryOp exFileC2 emptyCache).1.map HTTPEntry.ID).Sorted (· ≤ ·) := by
  constructor <;> decide

/-- C2 (amended): for every project file, the history operation yields one
entry per scanned record location in scan order (window-major, then
pattern-major) — not in ascending request-offset order — with each entry's ID
equal to its location's request offset (as a u64), and the scanned request
offsets (hence the IDs) pairwise distinct. -/
theorem httpHistory_entry_ids (file : List Nat) :
    ((scanHTTPRecords file).map HTTPRecordLocation.RequestOffset).Nodup ∧
    ((httpHistoryOp file emptyCache).1).map HTTPEntry.ID =
      (scanHTTPRecords file).map fun loc => toUint64 loc.RequestOffset := by
  constructor
  · exact scanHTTPRecords_offsets_nodup file
  · have hh : (httpHistoryOp file emptyCache).1 =
        (scanHTTPRecords file).filterMap (parseHTTPEntry file) := by
      simp [httpHistoryOp, emptyCache]
    rw [hh]
    refine filterMap_map_of_some _ _ _ _ ?_
    intro loc hloc
    obtain ⟨h0, h1, -⟩ := scanHTTPRecords_valid file loc hloc
    exact parseHTTPEntry_some_of_valid h0 h1

/-- C9: the count returned by `HTTPHistoryCount` equals the length of the
list returned by `HTTPHistory`, whichever of the two is called first on a
freshly opened reader. -/
theorem httpHistoryCount_eq_length (file : List Nat) :
    (httpHistoryCountOp file emptyCache).1 =
      (httpHistoryOp file (httpHistoryCountOp file emptyCache).2).1.length ∧
    (httpHistoryCountOp file (httpHistoryOp file emptyCache).2).1 =
      (httpHistoryOp file emptyCache).1.length := by
  have hvalid : ∀ loc ∈ scanHTTPRecords file, ((parseHTTPEntry file) loc).isSome := by
    intro loc hloc
    obtain ⟨h0, h1, -⟩ := scanHTTPRecords_valid file loc hloc
    obtain ⟨e, he, -⟩ := parseHTTPEntry_some_of_valid h0 h1
    rw [he]
    rfl
  have hlen := filterMap_length_eq (parseHTTPEntry file) (scanHTTPRecords file) hvalid
  constructor
  · simp [httpHistoryCountOp, httpHistoryOp, emptyCache, hlen]
  · simp [httpHistoryCountOp, httpHistoryOp, emptyCache]

theorem tryReadUTF16BEStringRecordV1_inv (file : List Nat) (start : Int) (s : List Nat)
    (h : tryReadUTF16BEStringRecordV1 file start = some s) :
    ∃ header, readAt file start 32 = some header ∧
      beRange header 20 28 = 8 + 2 * beRange header 28 32 ∧
      beRange header 28 32 ≤ 1000000 ∧
      (beRange header 28 32 = 0 → s = []) := by
  unfold tryReadUTF16BEStringRecordV1 at h
  split at h
  · simp at h
  · rename_i header hra
    refine ⟨header, hra, ?_⟩
    split at h
    · simp at h
    · split at h
      · simp at h
      · dsimp only at h
        split at h
        · simp at h
        · rename_i hlenOK
          split at h
          · rename_i hzero
            have hs : s = [] := by simpa using h.symm
            exact ⟨by omega, by omega, fun _ => hs⟩
          · rename_i hzero
            split at h
            · simp at h
            · rename_i hbig
              refine ⟨by omega, by omega, fun hc => absurd hc hzero⟩

theorem tryReadUTF16BEStringRecordV2_inv (file : List Nat) (start : Int) (s : List Nat)
    (h : tryReadUTF16BEStringRecordV2 file start = some s) :
    ∃ header, readAt file start 30 = some header ∧
      beRange header 0x12 0x1a = 8 + 2 * beRange header 0x1a 0x1e ∧
      beRange header 0x1a 0x1e ≤ 1000000 ∧
      (beRange header 0x1a 0x1e = 0 → s = []) := by
  unfold tryReadUTF16BEStringRecordV2 at h
  split at h
  · simp at h
  · rename_i header hra
    refine ⟨header, hra, ?_⟩
    split at h
    · simp at h
    · split at h
      · simp at h
      · split at h
        · simp at h
        · dsimp only at h
          split at h
          · simp at h
          · rename_i hlenOK
            split at h
            · rename_i hzero
              have hs : s = [] := by simpa using h.symm
              exact ⟨by omega, by omega, fun _ => hs⟩
            · rename_i hzero
              split at h
              · simp at h
              · rename_i hbig
                exact ⟨by omega, by omega, fun hc => absurd hc hzero⟩

/-- C3: the wide-string decoder tries layout v1 then v2 at each of the bases
`p`, `p+2`, `p−2` in that order and returns the first successful decode; a
candidate succeeds only when `total_len = 8 + 2·char_len`, `char_len = 0`
yields the empty string, and `char_len > 1,000,000` is rejected. -/
theorem readUTF16BEStringRecord_spec (file : List Nat) (p : Int) (hp : 0 < p) :
    utf16DecoderSpec file p := by
  refine ⟨?_, fun start s h => tryReadUTF16BEStringRecordV1_inv file start s h,
    fun start s h => tryReadUTF16BEStringRecordV2_inv file start s h⟩
  intro s
  unfold readUTF16BEStringRecord
  rw [if_neg (by omega)]
  cases h1 : tryReadUTF16BEStringRecordV1 file p with
  | some t => simp [readUTF16BEStringRecordGo, h1]
  | none =>
    cases h2 : tryReadUTF16BEStringRecordV2 file p with
    | some t => simp [readUTF16BEStringRecordGo, h1, h2]
    | none =>
      cases h3 : tryReadUTF16BEStringRecordV1 file (p + 2) with
      | some t => simp [readUTF16BEStringRecordGo, h1, h2, h3]
      | none =>
        cases h4 : tryReadUTF16BEStringRecordV2 file (p + 2) with
        | some t => simp [readUTF16BEStringRecordGo, h1, h2, h3, h4]
        | none =>
          cases h5 : tryReadUTF16BEStringRecordV1 file (p - 2) with
          | some t => simp [readUTF16BEStringRecordGo, h1, h2, h3, h4, h5]
          | none =>
            cases h6 : tryReadUTF16BEStringRecordV2 file (p - 2) with
            | some t => simp [readUTF16BEStringRecordGo, h1, h2, h3, h4, h5, h6]
            | none => simp [readUTF16BEStringRecordGo, h1, h2, h3, h4, h5, h6]

/-- C3: witness.  The decoder succeeds on a concrete framed-wide-v1 record at
pointer 1, and the specification holds there. -/
theorem readUTF16BEStringRecord_spec_witness :
    (0 : Int) < 1 ∧ utf16DecoderSpec exFileC3 1 :=
  ⟨by decide, readUTF16BEStringRecord_spec exFileC3 1 (by decide)⟩

theorem buildScannerIssueMeta_serial (file : List Nat) (defs : Nat → Option IssueDefinition)
    (abs : Int) (rec : List Nat) :
    (buildScannerIssueMeta file defs abs rec).SerialNumber = beRange rec 0x3a 0x42 := rfl

theorem readScannerIssueMeta_stepInv (file : List Nat) (defs : Nat → Option IssueDefinition)
    (abs : Int) (filt : Option (List Nat)) (seen : List Nat) :
    stepInv seen (readScannerIssueMetaAtOffset file defs abs filt seen) := by
  unfold readScannerIssueMetaAtOffset
  split
  · exact ⟨fun x hx => hx, fun m hm => by simp at hm⟩
  · split
    · exact ⟨fun x hx => hx, fun m hm => by simp at hm⟩
    · split
      · exact ⟨fun x hx => hx, fun m hm => by simp at hm⟩
      · split
        · exact ⟨fun x hx => hx, fun m hm => by simp at hm⟩
        · split
          · exact ⟨fun x hx => hx, fun m hm => by simp at hm⟩
          · split
            · exact ⟨fun x hx => hx, fun m hm => by simp at hm⟩
            · rename_i hnew
              split
              · exact ⟨fun x hx => List.mem_cons_of_mem _ hx, fun m hm => by simp at hm⟩
              · split
                · exact ⟨fun x hx => List.mem_cons_of_mem _ hx, fun m hm => by simp at hm⟩
                · refine ⟨fun x hx => List.mem_cons_of_mem _ hx, fun m hm => ?_⟩
                  simp only [Option.some.injEq] at hm
                  subst hm
                  rw [buildScannerIssueMeta_serial]
                  exact ⟨hnew, List.mem_cons_self _ _⟩

theorem idxIssueStep_stepInv (file : List Nat) (defs : Nat → Option IssueDefinition)
    (filt : Option (List Nat)) (offset : Int) (i : Nat) (seen : List Nat) :
    stepInv seen (idxIssueStep file defs filt offset i seen) := by
  unfold idxIssueStep
  split
  · exact ⟨fun x hx => hx, fun m hm => by simp at hm⟩
  · split
    · exact ⟨fun x hx => hx, fun m hm => by simp at hm⟩
    · split
      · exact ⟨fun x hx => hx, fun m hm => by simp at hm⟩
      · exact readScannerIssueMeta_stepInv file defs _ filt seen

theorem foldInv_cons_of_step {seen : List Nat} {st : Option ScannerIssueMeta × List Nat}
    {r : List ScannerIssueMeta × List Nat}
    (hstep : stepInv seen st) (hr : foldInv st.2 r) :
    foldInv seen
      (match st.1 with
       | some m => m :: r.1
       | none => r.1, r.2) := by
  cases hs1 : st.1 with
  | none =>
    refine ⟨fun x hx => hr.1 _ (hstep.1 x hx), hr.2.1, fun m hm => ?_⟩
    have h := hr.2.2 m hm
    exact ⟨h.1, fun hc => h.2 (hstep.1 _ hc)⟩
  | some m0 =>
    obtain ⟨hm0fresh, hm0in⟩ := hstep.2 m0 hs1
    refine ⟨fun x hx => hr.1 _ (hstep.1 x hx), ?_, ?_⟩
    · simp only [List.map_cons, List.nodup_cons]
      refine ⟨fun hc => ?_, hr.2.1⟩
      rw [List.mem_map] at hc
      obtain ⟨m', hm', heq⟩ := hc
      have h := hr.2.2 m' hm'
      rw [← heq] at hm0in
      exact h.2 hm0in
    · intro m hm
      rcases List.mem_cons.mp hm with rfl | hm
      · exact ⟨hr.1 _ hm0in, hm0fresh⟩
      · have h := hr.2.2 m hm
        exact ⟨h.1, fun hc => h.2 (hstep.1 _ hc)⟩

theorem idxPositions_foldInv (file : List Nat) (defs : Nat → Option IssueDefinition)
    (filt : Option (List Nat)) (offset : Int) :
    ∀ positions seen,
      foldInv seen (scanIssueMetasIdxPositions file defs filt offset positions seen) := by
  intro positions
  induction positions with
  | nil =>
    intro seen
    exact ⟨fun x hx => hx, List.nodup_nil, fun m hm => absurd hm (List.not_mem_nil m)⟩
  | cons i rest ih =>
    intro seen
    rw [scanIssueMetasIdxPositions]
    exact foldInv_cons_of_step (idxIssueStep_stepInv file defs filt offset i seen)
      (ih (idxIssueStep file defs filt offset i seen).2)

theorem rawPositions_foldInv (file : List Nat) (defs : Nat → Option IssueDefinition)
    (filt : Option (List Nat)) (offset : Int) :
    ∀ positions seen,
      foldInv seen (scanIssueMetasRawPositions file defs filt offset positions seen) := by
  intro positions
  induction positions with
  | nil =>
    intro seen
    exact ⟨fun x hx => hx, List.nodup_nil, fun m hm => absurd hm (List.not_mem_nil m)⟩
  | cons i rest ih =>
    intro seen
    rw [scanIssueMetasRawPositions]
    exact foldInv_cons_of_step
      (readScannerIssueMeta_stepInv file defs (offset + (i : Int)) filt seen)
      (ih (readScannerIssueMetaAtOffset file defs (offset + (i : Int)) filt seen).2)

theorem foldInv_append {seen : List Nat} {r r2 : List ScannerIssueMeta × List Nat}
    (hr : foldInv seen r) (hr2 : foldInv r.2 r2) :
    foldInv seen (r.1 ++ r2.1, r2.2) := by
  refine ⟨fun x hx => hr2.1 _ (hr.1 x hx), ?_, ?_⟩
  · rw [List.map_append, List.nodup_append]
    refine ⟨hr.2.1, hr2.2.1, ?_⟩
    intro a ha hb
    rw [List.mem_map] at ha hb
    obtain ⟨m1, hm1, heq1⟩ := ha
    obtain ⟨m2, hm2, heq2⟩ := hb
    have h1 := (hr.2.2 m1 hm1).1
    have h2 := (hr2.2.2 m2 hm2).2
    rw [heq1] at h1
    rw [heq2] at h2
    exact h2 h1
  · intro m hm
    rcases List.mem_append.mp hm with hm | hm
    · have h := hr.2.2 m hm
      exact ⟨hr2.1 _ h.1, h.2⟩
    · have h := hr2.2.2 m hm
      exact ⟨h.1, fun hc => h.2 (hr.1 _ hc)⟩

theorem idxLoopGo_foldInv (file : List Nat) (defs : Nat → Option IssueDefinition)
    (filt : Option (List Nat)) :
    ∀ fuel offset seen,
      foldInv seen (scanScannerIssueMetasLoopGo file defs filt fuel offset seen) := by
  intro fuel
  induction fuel with
  | zero =>
    intro offset seen
    exact ⟨fun x hx => hx, List.nodup_nil, fun m hm => absurd hm (List.not_mem_nil m)⟩
  | succ fuel ih =>
    intro offset seen
    rw [scanScannerIssueMetasLoopGo]
    split
    · dsimp only
      split
      · exact ⟨fun x hx => hx, List.nodup_nil, fun m hm => absurd hm (List.not_mem_nil m)⟩
      · split
        · exact ⟨fun x hx => hx, List.nodup_nil, fun m hm => absurd hm (List.not_mem_nil m)⟩
        · exact foldInv_append (idxPositions_foldInv file defs filt offset _ seen)
            (ih _ _)
    · exact ⟨fun x hx => hx, List.nodup_nil, fun m hm => absurd hm (List.not_mem_nil m)⟩

theorem rawLoopGo_foldInv (file : List Nat) (defs : Nat → Option IssueDefinition)
    (filt : Option (List Nat)) :
    ∀ fuel offset seen,
      foldInv seen (scanScannerIssueMetasRawLoopGo file defs filt fuel offset seen) := by
  intro fuel
  induction fuel with
  | zero =>
    intro offset seen
    exact ⟨fun x hx => hx, List.nodup_nil, fun m hm => absurd hm (List.not_mem_nil m)⟩
  | succ fuel ih =>
    intro offset seen
    rw [scanScannerIssueMetasRawLoopGo]
    split
    · dsimp only
      split
      · exact ⟨fun x hx => hx, List.nodup_nil, fun m hm => absurd hm (List.not_mem_nil m)⟩
      · split
        · exact ⟨fun x hx => hx, List.nodup_nil, fun m hm => absurd hm (List.not_mem_nil m)⟩
        · exact foldInv_append (rawPositions_foldInv file defs filt offset _ seen)
            (ih _ _)
    · exact ⟨fun x hx => hx, List.nodup_nil, fun m hm => absurd hm (List.not_mem_nil m)⟩

/-- C4: in one call to `ScanScannerIssueMetas` (and likewise one call to
`ScanScannerIssueMetasRaw`), the serial numbers of the returned metas are
pairwise distinct: each scanner-issue serial appears at most once in the
output. -/
theorem scanScannerIssueMetas_serials_nodup (file : List Nat)
    (defs : Nat → Option IssueDefinition) (filt : Option (List Nat)) :
    ((scanScannerIssueMetas file defs filt).map ScannerIssueMeta.SerialNumber).Nodup ∧
    ((scanScannerIssueMetasRaw file defs filt).map ScannerIssueMeta.SerialNumber).Nodup :=
  ⟨(idxLoopGo_foldInv file defs filt _ _ []).2.1,
   (rawLoopGo_foldInv file defs filt _ _ []).2.1⟩

/-- C5: the issue decoder maps severity bytes 1–4 to Info, Low, Medium, High
and confidence bytes 1–3 to Tentative, Firm, Certain; for a candidate record
whose severity byte is outside 1–4 or whose confidence byte is outside 1–3,
no meta is emitted for that record. -/
theorem severity_confidence_mapping (file : List Nat)
    (defs : Nat → Option IssueDefinition) (abs : Int) (filt : Option (List Nat))
    (seen : List Nat) (rec : List Nat)
    (hra : readAt file abs 0x98 = some rec)
    (hbad : (severityFromBurpByte (rec.getD 0x6a 0)).2 = false ∨
            (confidenceFromBurpByte (rec.getD 0x6b 0)).2 = false) :
    (severityFromBurpByte 1 = (Severity.Info, true) ∧
     severityFromBurpByte 2 = (Severity.Low, true) ∧
     severityFromBurpByte 3 = (Severity.Medium, true) ∧
     severityFromBurpByte 4 = (Severity.High, true) ∧
     confidenceFromBurpByte 1 = (Confidence.Tentative, true) ∧
     confidenceFromBurpByte 2 = (Confidence.Firm, true) ∧
     confidenceFromBurpByte 3 = (Confidence.Certain, true)) ∧
    (∀ b, b ∉ ([1, 2, 3, 4] : List Nat) → (severityFromBurpByte b).2 = false) ∧
    (∀ b, b ∉ ([1, 2, 3] : List Nat) → (confidenceFromBurpByte b).2 = false) ∧
    (readScannerIssueMetaAtOffset file defs abs filt seen).1 = none := by
  refine ⟨⟨rfl, rfl, rfl, rfl, rfl, rfl, rfl⟩, ?_, ?_, ?_⟩
  · intro b hb
    match b with
    | 0 => rfl
    | 1 => exact absurd (by simp) hb
    | 2 => exact absurd (by simp) hb
    | 3 => exact absurd (by simp) hb
    | 4 => exact absurd (by simp) hb
    | n + 5 => rfl
  · intro b hb
    match b with
    | 0 => rfl
    | 1 => exact absurd (by simp) hb
    | 2 => exact absurd (by simp) hb
    | 3 => exact absurd (by simp) hb
    | n + 4 => rfl
  · unfold readScannerIssueMetaAtOffset
    split
    · rfl
    · rw [hra]
      dsimp only
      split
      · rfl
      · split
        · rfl
        · split
          · rfl
          · split
            · rfl
            · split
              · rfl
              · split
                · rfl
                · rename_i hsev hconf
                  exfalso
                  rw [not_not] at hsev hconf
                  rcases hbad with hb | hb
                  · rw [hb] at hsev
                    simp at hsev
                  · rw [hb] at hconf
                    simp at hconf

set_option maxRecDepth 100000 in
/-- C5: witness.  On a concrete issue record whose severity byte is 0, no
meta is emitted. -/
theorem severity_confidence_mapping_witness :
    (readScannerIssueMetaAtOffset exFileC5 (fun _ => none) 1 none []).1 = none :=
  (severity_confidence_mapping exFileC5 (fun _ => none) 1 none []
      ((exFileC5.drop 1).take 0x98) (by decide) (Or.inl (by decide))).2.2.2

/-- C10: when a candidate record with an unseen serial passes the signature,
filter and seen-set checks but is rejected for an invalid severity or
confidence byte, its serial is nevertheless added to the seen-serial set;
and any record whose serial is already in the seen set yields no meta, so a
later well-formed record bearing the same serial is silently dropped. -/
theorem readScannerIssueMeta_rejection_records_serial
    (file : List Nat) (defs : Nat → Option IssueDefinition) (abs : Int)
    (filt : Option (List Nat)) (seen : List Nat) (rec : List Nat)
    (habs : ¬(abs ≤ 0 ∨ abs ≥ size file))
    (hra : readAt file abs 0x98 = some rec)
    (hlen : ¬ rec.length < 0x98)
    (hsig : scannerIssueEntrySignature.isPrefixOf rec)
    (hfilt : passesSerialFilter filt (beRange rec 0x3a 0x42) = true)
    (hnew : beRange rec 0x3a 0x42 ∉ seen)
    (hbad : (severityFromBurpByte (rec.getD 0x6a 0)).2 = false ∨
            (confidenceFromBurpByte (rec.getD 0x6b 0)).2 = false) :
    ((readScannerIssueMetaAtOffset file defs abs filt seen).1 = none ∧
     (readScannerIssueMetaAtOffset file defs abs filt seen).2 =
       beRange rec 0x3a 0x42 :: seen) ∧
    (∀ (file2 : List Nat) (defs2 : Nat → Option IssueDefinition) (abs2 : Int)
       (filt2 : Option (List Nat)) (seen2 : List Nat) (rec2 : List Nat),
        readAt file2 abs2 0x98 = some rec2 →
        beRange rec2 0x3a 0x42 ∈ seen2 →
        (readScannerIssueMetaAtOffset file2 defs2 abs2 filt2 seen2).1 = none) := by
  constructor
  · unfold readScannerIssueMetaAtOffset
    rw [if_neg habs, hra]
    dsimp only
    rw [if_neg hlen, if_neg (by simp [hsig]), if_neg (by simp [hfilt]), if_neg hnew]
    rcases hbad with hb | hb
    · rw [if_pos (by rw [hb]; simp)]
      exact ⟨rfl, rfl⟩
    · by_cases hsev : (severityFromBurpByte (rec.getD 0x6a 0)).2
      · rw [if_neg (not_not.mpr hsev), if_pos (by rw [hb]; simp)]
        exact ⟨rfl, rfl⟩
      · rw [if_pos hsev]
        exact ⟨rfl, rfl⟩
  · intro file2 defs2 abs2 filt2 seen2 rec2 hra2 hmem
    unfold readScannerIssueMetaAtOffset
    split
    · rfl
    · rw [hra2]
      dsimp only
      split
      · rfl
      · split
        · rfl
        · split
          · rfl
          · rfl

set_option maxRecDepth 100000 in
/-- C10: witness.  On a concrete file whose issue record has serial 7 and an
invalid severity byte, the rejected record still records serial 7 in the
seen-set, and a second decode attempt with 7 already seen emits nothing. -/
theorem readScannerIssueMeta_rejection_records_serial_witness :
    (readScannerIssueMetaAtOffset exFileC10 (fun _ => none) 1 none []).1 = none ∧
    (readScannerIssueMetaAtOffset exFileC10 (fun _ => none) 1 none []).2 = [7] ∧
    (readScannerIssueMetaAtOffset exFileC10 (fun _ => none) 1 none [7]).1 = none := by
  have h := readScannerIssueMeta_rejection_records_serial exFileC10 (fun _ => none) 1 none []
    ((exFileC10.drop 1).take 0x98) (by decide) (by decide) (by decide) (by decide)
    (by decide) (by decide) (Or.inl (by decide))
  refine ⟨h.1.1, ?_, ?_⟩
  · have h2 := h.1.2
    have hserial : beRange ((exFileC10.drop 1).take 0x98) 0x3a 0x42 = 7 := by decide
    rw [hserial] at h2
    exact h2
  · exact h.2 exFileC10 (fun _ => none) 1 none [7] ((exFileC10.drop 1).take 0x98)
      (by decide) (by decide)

theorem visitedInv_refl (v : List (Int × Nat)) : visitedInv v v :=
  ⟨[], rfl, List.nodup_nil, fun p hp => absurd hp (List.not_mem_nil p),
   fun p hp => absurd hp (List.not_mem_nil p)⟩

theorem visitedInv_comp {v v1 v2 : List (Int × Nat)}
    (h1 : visitedInv v v1) (h2 : visitedInv v1 v2) : visitedInv v v2 := by
  obtain ⟨n1, rfl, hnd1, hd1, hf1⟩ := h1
  obtain ⟨n2, rfl, hnd2, hd2, hf2⟩ := h2
  refine ⟨n2 ++ n1, by rw [List.append_assoc], ?_, ?_, ?_⟩
  · rw [List.map_append, List.nodup_append]
    refine ⟨hnd2, hnd1, ?_⟩
    intro a ha hb
    rw [List.mem_map] at ha
    obtain ⟨p, hp, rfl⟩ := ha
    have := hf2 p hp
    rw [List.map_append] at this
    exact this (List.mem_append.mpr (Or.inl hb))
  · intro p hp
    rcases List.mem_append.mp hp with hp | hp
    · exact hd2 p hp
    · exact hd1 p hp
  · intro p hp
    rcases List.mem_append.mp hp with hp | hp
    · have := hf2 p hp
      rw [List.map_append] at this
      exact fun hc => this (List.mem_append.mpr (Or.inr hc))
    · exact hf1 p hp

theorem visitedInv_cons {v v2 : List (Int × Nat)} {offset : Int} {depth : Nat}
    (hvis : offset ∉ v.map Prod.fst) (hdep : depth ≤ 6)
    (h : visitedInv ((offset, depth) :: v) v2) : visitedInv v v2 := by
  obtain ⟨newv, rfl, hnd, hd, hf⟩ := h
  refine ⟨newv ++ [(offset, depth)], by simp, ?_, ?_, ?_⟩
  · rw [List.map_append, List.nodup_append]
    refine ⟨hnd, by simp, ?_⟩
    intro a ha hb
    rw [List.mem_map] at ha
    obtain ⟨p, hp, rfl⟩ := ha
    have := hf p hp
    simp only [List.map_cons] at this
    simp only [List.map_singleton, List.mem_singleton] at hb
    exact this (hb ▸ List.mem_cons_self _ _)
  · intro p hp
    rcases List.mem_append.mp hp with hp | hp
    · exact hd p hp
    · rw [List.mem_singleton] at hp
      subst hp
      exact hdep
  · intro p hp
    rcases List.mem_append.mp hp with hp | hp
    · have := hf p hp
      simp only [List.map_cons] at this
      exact fun hc => this (List.mem_cons_of_mem _ hc)
    · rw [List.mem_singleton] at hp
      subst hp
      exact hvis

theorem collectHTTPMessagesList_inv_of_one {file : List Nat} {d : Nat}
    (h1 : ∀ offset visited, visitedInv visited (collectHTTPMessages file offset visited d).2) :
    ∀ ptrs visited, visitedInv visited (collectHTTPMessagesList file ptrs visited d).2 := by
  intro ptrs
  induction ptrs with
  | nil =>
    intro visited
    rw [collectHTTPMessagesList]
    exact visitedInv_refl _
  | cons p rest ih =>
    intro visited
    rw [collectHTTPMessagesList]
    dsimp only
    exact visitedInv_comp (h1 p visited) (ih _)

theorem collectHTTPMessages_inv (file : List Nat) :
    ∀ fuel depth, 7 - depth ≤ fuel →
      ∀ offset visited, visitedInv visited (collectHTTPMessages file offset visited depth).2 := by
  intro fuel
  induction fuel with
  | zero =>
    intro depth hd offset visited
    rw [collectHTTPMessages, if_pos (Or.inr (by omega))]
    exact visitedInv_refl _
  | succ fuel ih =>
    intro depth hd offset visited
    rw [collectHTTPMessages]
    split
    · exact visitedInv_refl _
    · rename_i hguard
      split
      · exact visitedInv_refl _
      · rename_i hvis
        dsimp only
        have hdep : depth ≤ 6 := by omega
        have hone' := ih (depth + 1) (by omega)
        have hlist := collectHTTPMessagesList_inv_of_one hone'
        have h3 := hlist (evidenceListChildren file offset) ((offset, depth) :: visited)
        have h4 := hlist (evidenceTypedChildren file offset)
          (collectHTTPMessagesList file (evidenceListChildren file offset)
            ((offset, depth) :: visited) (depth + 1)).2
        have hmem : offset ∉ visited.map Prod.fst := by
          intro hc
          exact hvis (by simpa using hc)
        exact visitedInv_cons hmem hdep (visitedInv_comp h3 h4)

/-- C8: evidence extraction terminates on every input, including cyclic
evidence graphs (`collectHTTPMessages` is a total function of this
development); the traversal never visits the same offset twice, and every
visit happens at depth at most 6. -/
theorem collectHTTPMessages_bounded (file : List Nat) (offset : Int) :
    (((collectHTTPMessages file offset [] 0).2.map Prod.fst).Nodup) ∧
    (∀ p ∈ (collectHTTPMessages file offset [] 0).2, p.2 ≤ 6) := by
  obtain ⟨newv, heq, hnodup, hdepth, -⟩ :=
    collectHTTPMessages_inv file 7 0 (by omega) offset []
  rw [heq]
  simp only [List.append_nil]
  exact ⟨hnodup, hdepth⟩

theorem requestEndIn_pos (data : List Nat) (hlen : 10 ≤ data.length) :
    1 ≤ requestEndIn data := by
  unfold requestEndIn
  dsimp only
  split
  · split
    · omega
    · split <;> omega
  · omega

theorem parseRecordAtOffset_ResponseOffset_valid (file : List Nat) (o : Int) :
    (parseRecordAtOffset file o).ResponseOffset = 0 ∨
    (0 < (parseRecordAtOffset file o).ResponseOffset ∧
     (parseRecordAtOffset file o).ResponseOffset < size file) := by
  unfold parseRecordAtOffset
  dsimp only
  split
  · exact Or.inl rfl
  · rename_i data hra
    split
    · exact Or.inl rfl
    · rename_i hlen
      split
      · exact Or.inl rfl
      · rename_i hss
        split
        · rename_i respIdx hbi
          have h1 : 1 ≤ requestEndIn data := requestEndIn_pos data (by omega)
          have hocc := ((bytesIndex_some_iff _ _ _).mp hbi).1
          have hlen2 := occursAt_length_le hocc
          rw [List.length_drop] at hlen2
          have hps : (ascii "HTTP/1.").length = 7 := rfl
          have hlen3 : respIdx + 7 ≤ data.length - (requestEndIn data).toNat := by
            rcases hlen2 with h2 | h2
            · rw [hps] at h2; exact h2
            · exact absurd h2 (by decide)
          obtain ⟨h0o, -, -⟩ := readAt_eq_some hra
          have hsz := readAt_length_le hra
          unfold size at hsz ⊢
          split
          · right
            dsimp only
            constructor <;> omega
          · right
            dsimp only
            constructor <;> omega
        · exact Or.inl rfl

theorem scanHTTPRecords_resp_valid (file : List Nat) :
    ∀ loc ∈ scanHTTPRecords file,
      0 < loc.ResponseOffset → loc.ResponseOffset < size file := by
  intro loc hloc
  unfold scanHTTPRecords at hloc
  dsimp only at hloc
  rw [List.mem_filter] at hloc
  obtain ⟨hmem, -⟩ := hloc
  rw [List.mem_map] at hmem
  obtain ⟨o, -, rfl⟩ := hmem
  intro hpos
  rcases parseRecordAtOffset_ResponseOffset_valid file o with h | h
  · omega
  · exact h.2

theorem extractHostFromHeaders_port_default (entry : HTTPEntry) :
    ∀ (hdrs : List (List Nat × List (List Nat))) (v : List Nat),
      firstHostValue hdrs = some v → bytesIndex v [58] = none →
      (extractHostFromHeaders entry hdrs).Port = 80 := by
  intro hdrs
  induction hdrs with
  | nil => intro v hv hnc; exact absurd hv (by simp [firstHostValue])
  | cons kv rest ih =>
    obtain ⟨key, values⟩ := kv
    intro v hv hnc
    rw [firstHostValue] at hv
    rw [extractHostFromHeaders]
    split
    · rename_i hc
      rw [if_pos hc] at hv
      injection hv with hveq
      dsimp only
      rw [hveq, hnc]
    · rename_i hc
      rw [if_neg hc] at hv
      exact ih v hv hnc

theorem parseRequestLine_URL (e : HTTPEntry) (l : List Nat) :
    (parseRequestLine e l).URL = e.URL := by
  unfold parseRequestLine
  repeat' split
  all_goals rfl

theorem parseStatusLine_URL (e : HTTPEntry) (l : List Nat) :
    (parseStatusLine e l).URL = e.URL := by
  unfold parseStatusLine
  repeat' split
  all_goals rfl

theorem extractHostFromHeaders_URL (e : HTTPEntry) :
    ∀ hs, (extractHostFromHeaders e hs).URL = e.URL := by
  intro hs
  induction hs with
  | nil => rfl
  | cons kv rest ih =>
    obtain ⟨k, v⟩ := kv
    rw [extractHostFromHeaders]
    split
    · dsimp only
      split <;> rfl
    · exact ih

theorem extractContentTypeLoop_URL (e : HTTPEntry) :
    ∀ hs, (extractContentTypeLoop e hs).URL = e.URL := by
  intro hs
  induction hs with
  | nil => rfl
  | cons kv rest ih =>
    obtain ⟨k, v⟩ := kv
    rw [extractContentTypeLoop]
    split
    · dsimp only
    · exact ih

theorem extractContentLengthLoop_URL (e : HTTPEntry) :
    ∀ hs, (extractContentLengthLoop e hs).URL = e.URL := by
  intro hs
  induction hs with
  | nil => rfl
  | cons kv rest ih =>
    obtain ⟨k, v⟩ := kv
    rw [extractContentLengthLoop]
    split
    · rfl
    · exact ih

theorem extractContentTypeFromHeaders_URL (e : HTTPEntry)
    (hs : List (List Nat × List (List Nat))) :
    (extractContentTypeFromHeaders e hs).URL = e.URL := by
  unfold extractContentTypeFromHeaders
  rw [extractContentLengthLoop_URL, extractContentTypeLoop_URL]

theorem buildURL_of_empty_host (e : HTTPEntry) (h : e.Host = []) : buildURL e = e := by
  unfold buildURL
  rw [if_pos h]

theorem buildURL_fields (e : HTTPEntry) :
    (buildURL e).Host = e.Host ∧ (buildURL e).Port = e.Port ∧
    (buildURL e).Path = e.Path ∧ (buildURL e).QueryString = e.QueryString := by
  unfold buildURL
  dsimp only
  repeat' split
  all_goals exact ⟨rfl, rfl, rfl, rfl⟩

theorem buildURL_url (e : HTTPEntry) (h : e.Host ≠ []) :
    (buildURL e).URL = urlOf e := by
  unfold buildURL urlOf
  rw [if_neg h]
  dsimp only
  split_ifs <;> simp_all [List.append_assoc]

theorem parseHTTPEntryResp_builds (file : List Nat) (loc : HTTPRecordLocation)
    (entry : HTTPEntry)
    (hrv : 0 < loc.ResponseOffset → loc.ResponseOffset < size file) :
    ∃ e0, parseHTTPEntryResp file loc entry = some (buildURL e0) ∧
      e0.URL = entry.URL := by
  unfold parseHTTPEntryResp
  dsimp only
  split
  · rename_i hc
    have hra : readAt file loc.ResponseOffset loc.ResponseLength.toNat =
        some ((file.drop loc.ResponseOffset.toNat).take loc.ResponseLength.toNat) := by
      unfold readAt
      rw [if_pos ⟨le_of_lt hc.2, hrv hc.2⟩]
    rw [hra]
    refine ⟨_, rfl, ?_⟩
    rw [extractContentTypeFromHeaders_URL, parseStatusLine_URL]
  · exact ⟨entry, rfl, rfl⟩

theorem parseHTTPEntry_built (file : List Nat) (loc : HTTPRecordLocation)
    (e : HTTPEntry)
    (hrv : 0 < loc.ResponseOffset → loc.ResponseOffset < size file)
    (hp : parseHTTPEntry file loc = some e) :
    ∃ e0, e = buildURL e0 ∧ e0.URL = [] := by
  unfold parseHTTPEntry at hp
  dsimp only at hp
  split at hp
  · split at hp
    · exact absurd hp (by simp)
    · rename_i reqData hra
      obtain ⟨e0, h0, hu⟩ := parseHTTPEntryResp_builds file loc _ hrv
      rw [h0] at hp
      refine ⟨e0, ?_, ?_⟩
      · injection hp with h; exact h.symm
      · rw [hu, extractHostFromHeaders_URL, parseRequestLine_URL]
        rfl
  · obtain ⟨e0, h0, hu⟩ := parseHTTPEntryResp_builds file loc _ hrv
    rw [h0] at hp
    refine ⟨e0, ?_, ?_⟩
    · injection hp with h; exact h.symm
    · rw [hu]
      rfl

theorem headD_mem_of_ne_nil {α : Type} (l : List α) (d : α) (h : l ≠ []) :
    l.headD d ∈ l := by
  cases l with
  | nil => exact absurd rfl h
  | cons x xs => exact List.mem_cons_self _ _

/-- C7: for every parsed HTTP entry of the history pipeline: its id equals the
request offset of its scanned record location; the URL is empty when the host
is empty, and otherwise equals scheme://host[:port]path[?query] where the
scheme is `https` exactly when the port is 443, the `:port` token appears
literally when the port is neither 80 nor 443 and the query string follows a
`?` exactly when nonempty; and the port chosen by `extractHostFromHeaders`
defaults to 80 when the selected Host value carries no colon. -/
theorem parsedHTTPEntry_url_spec (file : List Nat) (e : HTTPEntry)
    (he : e ∈ (httpHistoryOp file emptyCache).1) : parsedEntrySpec file e := by
  have hmem : e ∈ (scanHTTPRecords file).filterMap (parseHTTPEntry file) := by
    simpa [httpHistoryOp, emptyCache] using he
  rw [List.mem_filterMap] at hmem
  obtain ⟨loc, hloc, hp⟩ := hmem
  have hid : e.ID = toUint64 loc.RequestOffset := by
    obtain ⟨h0, h1, -⟩ := scanHTTPRecords_valid file loc hloc
    obtain ⟨e2, hp2, hid2⟩ := parseHTTPEntry_some_of_valid h0 h1
    rw [hp] at hp2
    injection hp2 with h
    rw [← h] at hid2
    exact hid2
  have hrv := scanHTTPRecords_resp_valid file loc hloc
  obtain ⟨e0, he0, hu0⟩ := parseHTTPEntry_built file loc e hrv hp
  obtain ⟨hH, hPo, hPa, hQ⟩ := buildURL_fields e0
  have hurl : e.Host ≠ [] → e.URL = urlOf e := by
    intro hhost
    have hhost0 : e0.Host ≠ [] := by rw [he0, hH] at hhost; exact hhost
    have h1 : e.URL = urlOf e0 := by rw [he0]; exact buildURL_url e0 hhost0
    rw [h1]
    unfold urlOf
    rw [he0, hH, hPo, hPa, hQ]
  refine ⟨⟨loc, hloc, hp, hid, ?_⟩, ?_, hurl, ?_, ?_⟩
  · intro hsz
    obtain ⟨h0, h1, -⟩ := scanHTTPRecords_valid file loc hloc
    rw [hid]
    unfold toUint64
    omega
  · intro hhost
    rw [he0] at hhost
    rw [hH] at hhost
    rw [he0, buildURL_of_empty_host e0 hhost]
    exact hu0
  · intro hhost hp80 hp443
    rw [hurl hhost]
    unfold urlOf
    rw [if_neg (by tauto : ¬(e.Port = 80 ∨ e.Port = 443))]
    refine ⟨(if e.Port = 443 then ascii "https" else ascii "http") ++
        ascii "://" ++ e.Host,
      e.Path ++ (if e.QueryString = [] then [] else ascii "?" ++ e.QueryString), ?_⟩
    simp [List.append_assoc]
  · intro entry hdrs v hv hnc
    exact extractHostFromHeaders_port_default entry hdrs v hv hnc

set_option maxRecDepth 1000000 in
/-- C7 witness: the single entry parsed from a concrete project file is in
the pipeline's output and satisfies the asserted property. -/
theorem parsedHTTPEntry_url_spec_witness :
    ((httpHistoryOp exFileC7 emptyCache).1.headD emptyHTTPEntry)
        ∈ (httpHistoryOp exFileC7 emptyCache).1 ∧
    parsedEntrySpec exFileC7
      ((httpHistoryOp exFileC7 emptyCache).1.headD emptyHTTPEntry) :=
  ⟨headD_mem_of_ne_nil _ _ (by decide),
   parsedHTTPEntry_url_spec exFileC7 _ (headD_mem_of_ne_nil _ _ (by decide))⟩

theorem buildUITaskDisplayName_table (file : List Nat) (taskPtr : Int)
    (rec : TypedRecord) (i : Nat) (sn : List Nat × List Nat)
    (h : buildUITaskDisplayName file taskPtr rec i = some sn) :
    uiTaskNameTable file taskPtr rec i sn := by
  unfold buildUITaskDisplayName at h
  unfold uiTaskNameTable
  dsimp only at h ⊢
  split at h
  · rename_i ht4
    split at h
    · exact Option.noConfusion h
    · rename_i hs
      injection h with h
      subst h
      refine ⟨fun h4 => ⟨hs, rfl⟩, fun h5 => by omega, fun h23 => absurd h23 (by omega),
        fun hn4 hn5 hn2 hn3 => absurd ht4 hn4⟩
  · rename_i hn4
    split at h
    · rename_i ht5
      split at h
      · exact Option.noConfusion h
      · rename_i hs
        injection h with h
        subst h
        refine ⟨fun h4 => absurd h4 hn4, fun h5 => ⟨hs, rfl⟩,
          fun h23 => absurd h23 (by omega), fun hm4 hm5 hm2 hm3 => absurd ht5 hm5⟩
    · rename_i hn5
      split at h
      · rename_i h23
        split at h
        · rename_i hcu
          injection h with h
          subst h
          refine ⟨fun h4 => absurd h4 hn4, fun h5 => absurd h5 hn5,
            fun h23x => ⟨rfl, fun _ => rfl, fun hcne _ => absurd hcu hcne,
              fun hcne _ => absurd hcu hcne⟩,
            fun hm4 hm5 hm2 hm3 => absurd h23 (not_or.mpr ⟨hm2, hm3⟩)⟩
        · rename_i hcu
          split at h
          · rename_i hnum
            injection h with h
            subst h
            refine ⟨fun h4 => absurd h4 hn4, fun h5 => absurd h5 hn5,
              fun h23x => ⟨rfl, fun hc => absurd hc hcu, fun _ _ => rfl,
                fun _ hf => absurd hf (by rw [hnum]; exact fun hc => Bool.noConfusion hc)⟩,
              fun hm4 hm5 hm2 hm3 => absurd h23 (not_or.mpr ⟨hm2, hm3⟩)⟩
          · rename_i hnum
            injection h with h
            subst h
            refine ⟨fun h4 => absurd h4 hn4, fun h5 => absurd h5 hn5,
              fun h23x => ⟨rfl, fun hc => absurd hc hcu,
                fun _ ht => absurd ht hnum, fun _ _ => rfl⟩,
              fun hm4 hm5 hm2 hm3 => absurd h23 (not_or.mpr ⟨hm2, hm3⟩)⟩
      · rename_i hn23
        split at h
        · rename_i hsne
          injection h with h
          subst h
          refine ⟨fun h4 => absurd h4 hn4, fun h5 => absurd h5 hn5,
            fun h23 => absurd h23 hn23,
            fun hm4 hm5 hm2 hm3 => ⟨fun _ => rfl, fun hse => absurd hse hsne⟩⟩
        · rename_i hse
          injection h with h
          subst h
          refine ⟨fun h4 => absurd h4 hn4, fun h5 => absurd h5 hn5,
            fun h23 => absurd h23 hn23,
            fun hm4 hm5 hm2 hm3 =>
              ⟨fun hsne => absurd hsne hse, fun _ => rfl⟩⟩

theorem buildUITaskDisplayName_scope_required (file : List Nat) (taskPtr : Int)
    (rec : TypedRecord) (i : Nat)
    (h45 : rec.type = 4 ∨ rec.type = 5)
    (hs : (readScopeStringFromUITaskRecord file taskPtr rec).getD [] = []) :
    buildUITaskDisplayName file taskPtr rec i = none := by
  unfold buildUITaskDisplayName
  dsimp only
  rcases h45 with h4 | h5
  · rw [if_pos h4, if_pos hs]
  · rw [if_neg (by omega), if_pos h5, if_pos hs]

theorem scanUITasksLoop_spec (file : List Nat) :
    ∀ (ptrs : List Int) (i : Nat) (tasks : List UITask),
      scanUITasksLoop file ptrs i = some tasks →
      ∀ k (hk : k < tasks.length), ∃ rec,
        readTypedRecordHeader file (tasks.get ⟨k, hk⟩).ID = some rec ∧
        (tasks.get ⟨k, hk⟩).type = rec.type ∧
        buildUITaskDisplayName file (tasks.get ⟨k, hk⟩).ID rec (i + k + 1) =
          some ((tasks.get ⟨k, hk⟩).Scope, (tasks.get ⟨k, hk⟩).Name) := by
  intro ptrs
  induction ptrs with
  | nil =>
    intro i tasks h k hk
    injection h with h
    subst h
    exact absurd hk (by simp)
  | cons p rest ih =>
    intro i tasks h k hk
    rw [scanUITasksLoop] at h
    split at h
    · exact Option.noConfusion h
    · split at h
      · exact Option.noConfusion h
      · rename_i rec hrec
        split at h
        · exact Option.noConfusion h
        · rename_i sn hsn
          split at h
          · exact Option.noConfusion h
          · rename_i tasks0 hloop
            injection h with h
            subst h
            cases k with
            | zero => exact ⟨rec, hrec, rfl, hsn⟩
            | succ k2 =>
              have hk2 : k2 < tasks0.length := by
                simp only [List.length_cons] at hk
                omega
              obtain ⟨rec2, h1, h2, h3⟩ := ih (i + 1) tasks0 hloop k2 hk2
              refine ⟨rec2, h1, h2, ?_⟩
              have harith : i + 1 + k2 + 1 = i + (k2 + 1) + 1 := by omega
              rw [harith] at h3
              exact h3

/-- C6: for every UI task list entry decoded by `scanUITasks`, the display
name is built from the compact record type per the table (type 4 "i. Live
passive crawl from scope", type 5 "i. Live audit from scope", types 2 and 3
the custom wide-string name with index prefix unless it already starts with a
digit and ". ", any other type "i. Task (type=T)" with the scope appended
when present), and a missing scope makes every task of type 4 or 5 fail. -/
theorem scanUITasks_display_names (file : List Nat) (tasks : List UITask)
    (h : scanUITasks file = some tasks) : uiTasksSpec file tasks := by
  constructor
  · intro k hk
    unfold scanUITasks at h
    split at h
    · exact Option.noConfusion h
    · split at h
      · injection h with h
        subst h
        exact absurd hk (by simp)
      · split at h
        · exact Option.noConfusion h
        · split at h
          · exact Option.noConfusion h
          · rename_i ptrs hvec
            split at h
            · exact Option.noConfusion h
            · obtain ⟨rec, h1, h2, h3⟩ := scanUITasksLoop_spec file _ 0 tasks h k hk
              refine ⟨rec, h1, h2, ?_⟩
              have harith : 0 + k + 1 = k + 1 := by omega
              rw [harith] at h3
              exact buildUITaskDisplayName_table file _ rec (k + 1) _ h3
  · intro taskPtr rec i h45 hs
    exact buildUITaskDisplayName_scope_required file taskPtr rec i h45 hs

set_option maxRecDepth 1000000 in
/-- C6 witness: the single type-5 task of a concrete project file decodes to
the display name "1. Live audit from in-scope URLs" and satisfies the
asserted property. -/
theorem scanUITasks_display_names_witness :
    scanUITasks exFileC6 = some ((scanUITasks exFileC6).getD []) ∧
    uiTasksSpec exFileC6 ((scanUITasks exFileC6).getD []) :=
  ⟨by decide, scanUITasks_display_names exFileC6 _ (by decide)⟩

end BurpInsights
